import Mathlib

/-!
Verification of the `shell_code_roast` interactive shell.

The development shallowly embeds the program: `src/src/command.py` (command
registry, the five command handlers and their algorithm tables),
`src/src/shell.py` (the read-dispatch-print loop) and the standard-library
codec and digest functions the handlers delegate to (`base64`, `binascii`,
`hashlib.md5`).  Bytes are modelled as `List Nat` with every element below
256, text as lists of Unicode scalar values; a raised Python exception is an
explicit error value.
-/

namespace ShellRoast

/-! ### Python string primitives

`str.strip()` removes leading/trailing whitespace, `str.upper()` upper-cases
(ASCII-faithful; the inputs in all claims are ASCII), `str.split(' ')` splits
on every single space without collapsing runs. -/

/-- Characters `str.strip()` removes (ASCII whitespace; Unicode spaces,
irrelevant to every claim, are not modelled). -/
def pyIsSpace (c : Char) : Bool :=
  c = ' ' || c = '\t' || c = '\n' || c = '\r' || c = '\x0b' || c = '\x0c'

/-- Python `str.strip()` with no argument. -/
def pyStrip (s : String) : String :=
  ⟨((s.data.dropWhile pyIsSpace).reverse.dropWhile pyIsSpace).reverse⟩

/-- Python `str.upper()` (ASCII case mapping), written over the character
list so that it evaluates by kernel reduction. -/
def pyUpper (s : String) : String := ⟨s.data.map Char.toUpper⟩

/-- Python `str.split(' ')` over the character list: split at every single
space, keeping empty fields.  The result is always non-empty. -/
def splitSpace : List Char → List (List Char)
  | [] => [[]]
  | c :: rest =>
    if c = ' ' then [] :: splitSpace rest
    else
      match splitSpace rest with
      | [] => [[c]]
      | w :: ws => (c :: w) :: ws

/-- Python `cmd.split(' ')` as a list of strings. -/
def pySplit (s : String) : List String :=
  (splitSpace s.data).map (fun w => ⟨w⟩)

theorem splitSpace_ne_nil (l : List Char) : splitSpace l ≠ [] := by
  cases l with
  | nil => simp [splitSpace]
  | cons c rest =>
    rw [splitSpace]
    split
    · simp
    · split <;> simp

/-- A line ending in a space splits into at least two fields, the last of
which is empty. -/
theorem splitSpace_trailing_space (l : List Char) (h : l.getLast? = some ' ') :
    2 ≤ (splitSpace l).length ∧ (splitSpace l).getLast? = some [] := by
  induction l with
  | nil => simp at h
  | cons c rest ih =>
    cases rest with
    | nil =>
      simp only [List.getLast?_singleton, Option.some.injEq] at h
      subst h
      simp [splitSpace]
    | cons c2 rest2 =>
      rw [List.getLast?_cons_cons] at h
      obtain ⟨hlen, hlast⟩ := ih h
      rw [splitSpace]
      have hne := splitSpace_ne_nil (c2 :: rest2)
      split
      · cases hsp : splitSpace (c2 :: rest2) with
        | nil => exact absurd hsp hne
        | cons w ws =>
          rw [hsp] at hlast
          constructor
          · simp
          · rw [List.getLast?_cons_cons]
            exact hlast
      · cases hsp : splitSpace (c2 :: rest2) with
        | nil => exact absurd hsp hne
        | cons w ws =>
          rw [hsp] at hlast hlen
          cases ws with
          | nil => simp at hlen
          | cons w2 ws2 =>
            constructor
            · simp
            · rw [List.getLast?_cons_cons] at hlast ⊢
              exact hlast

/-! ### The fixed character encoding (UTF-8)

Python `str.encode()` / `bytes.decode()` with the default codec.  Text is a
list of Unicode scalar values. -/

/-- A Unicode scalar value: a code point that is not a surrogate. -/
def ValidScalar (c : Nat) : Prop := c < 1114112 ∧ ¬(55296 ≤ c ∧ c ≤ 57343)

instance (c : Nat) : Decidable (ValidScalar c) := by
  unfold ValidScalar; infer_instance

/-- UTF-8 encoding of one scalar value. -/
def utf8EncodeChar (c : Nat) : List Nat :=
  if c < 128 then [c]
  else if c < 2048 then [192 + c / 64, 128 + c % 64]
  else if c < 65536 then [224 + c / 4096, 128 + c / 64 % 64, 128 + c % 64]
  else [240 + c / 262144, 128 + c / 4096 % 64, 128 + c / 64 % 64, 128 + c % 64]

/-- UTF-8 encoding of a text (Python `str.encode()`). -/
def utf8Encode (text : List Nat) : List Nat :=
  (text.map utf8EncodeChar).flatten

/-- One continuation byte check. -/
def utf8Cont (b : Nat) : Prop := 128 ≤ b ∧ b ≤ 191

instance (b : Nat) : Decidable (utf8Cont b) := by
  unfold utf8Cont; infer_instance

/-- Decode one two-byte UTF-8 sequence with lead byte `b1`. -/
def utf8Two (b1 : Nat) : List Nat → Option (Nat × List Nat)
  | b2 :: rest =>
    if utf8Cont b2 then some ((b1 - 192) * 64 + (b2 - 128), rest) else none
  | [] => none

/-- Decode one three-byte UTF-8 sequence with lead byte `b1` (the second-byte
range depends on the lead, excluding overlong forms and surrogates). -/
def utf8Three (b1 : Nat) : List Nat → Option (Nat × List Nat)
  | b2 :: b3 :: rest =>
    if (if b1 = 224 then 160 ≤ b2 ∧ b2 ≤ 191
        else if b1 = 237 then 128 ≤ b2 ∧ b2 ≤ 159
        else utf8Cont b2) ∧ utf8Cont b3 then
      some ((b1 - 224) * 4096 + (b2 - 128) * 64 + (b3 - 128), rest)
    else none
  | _ => none

/-- Decode one four-byte UTF-8 sequence with lead byte `b1`. -/
def utf8Four (b1 : Nat) : List Nat → Option (Nat × List Nat)
  | b2 :: b3 :: b4 :: rest =>
    if (if b1 = 240 then 144 ≤ b2 ∧ b2 ≤ 191
        else if b1 = 244 then 128 ≤ b2 ∧ b2 ≤ 143
        else utf8Cont b2) ∧ utf8Cont b3 ∧ utf8Cont b4 then
      some ((b1 - 240) * 262144 + (b2 - 128) * 4096 + (b3 - 128) * 64 + (b4 - 128), rest)
    else none
  | _ => none

/-- Decode one scalar value from the front of a strict UTF-8 byte stream. -/
def utf8DecodeOne : List Nat → Option (Nat × List Nat)
  | [] => none
  | b1 :: rest =>
    if b1 ≤ 127 then some (b1, rest)
    else if 194 ≤ b1 ∧ b1 ≤ 223 then utf8Two b1 rest
    else if 224 ≤ b1 ∧ b1 ≤ 239 then utf8Three b1 rest
    else if 240 ≤ b1 ∧ b1 ≤ 244 then utf8Four b1 rest
    else none

theorem utf8Two_length (b1 : Nat) (l : List Nat) (c : Nat) (rem : List Nat)
    (h : utf8Two b1 l = some (c, rem)) : rem.length < l.length := by
  match l with
  | [] => simp [utf8Two] at h
  | b2 :: rest =>
    rw [utf8Two] at h
    by_cases hc : utf8Cont b2
    · rw [if_pos hc] at h
      simp only [Option.some.injEq, Prod.mk.injEq] at h
      have := h.2
      subst this
      simp only [List.length_cons]
      omega
    · rw [if_neg hc] at h
      simp at h

theorem utf8Three_length (b1 : Nat) (l : List Nat) (c : Nat) (rem : List Nat)
    (h : utf8Three b1 l = some (c, rem)) : rem.length < l.length := by
  match l with
  | [] => simp [utf8Three] at h
  | [b2] => simp [utf8Three] at h
  | b2 :: b3 :: rest =>
    rw [utf8Three] at h
    by_cases hc : (if b1 = 224 then 160 ≤ b2 ∧ b2 ≤ 191
        else if b1 = 237 then 128 ≤ b2 ∧ b2 ≤ 159
        else utf8Cont b2) ∧ utf8Cont b3
    · rw [if_pos hc] at h
      simp only [Option.some.injEq, Prod.mk.injEq] at h
      have := h.2
      subst this
      simp only [List.length_cons]
      omega
    · rw [if_neg hc] at h
      simp at h

theorem utf8Four_length (b1 : Nat) (l : List Nat) (c : Nat) (rem : List Nat)
    (h : utf8Four b1 l = some (c, rem)) : rem.length < l.length := by
  match l with
  | [] => simp [utf8Four] at h
  | [b2] => simp [utf8Four] at h
  | [b2, b3] => simp [utf8Four] at h
  | b2 :: b3 :: b4 :: rest =>
    rw [utf8Four] at h
    by_cases hc : (if b1 = 240 then 144 ≤ b2 ∧ b2 ≤ 191
        else if b1 = 244 then 128 ≤ b2 ∧ b2 ≤ 143
        else utf8Cont b2) ∧ utf8Cont b3 ∧ utf8Cont b4
    · rw [if_pos hc] at h
      simp only [Option.some.injEq, Prod.mk.injEq] at h
      have := h.2
      subst this
      simp only [List.length_cons]
      omega
    · rw [if_neg hc] at h
      simp at h

theorem utf8DecodeOne_length (l : List Nat) (c : Nat) (rem : List Nat)
    (h : utf8DecodeOne l = some (c, rem)) : rem.length < l.length := by
  match l with
  | [] => simp [utf8DecodeOne] at h
  | b1 :: rest =>
    rw [utf8DecodeOne] at h
    split at h
    · simp at h; simp [h.2]
    · split at h
      · have := utf8Two_length b1 rest c rem h; simp; omega
      · split at h
        · have := utf8Three_length b1 rest c rem h; simp; omega
        · split at h
          · have := utf8Four_length b1 rest c rem h; simp; omega
          · simp at h

/-- Strict UTF-8 decoding (Python `bytes.decode()`), driven by a fuel
argument so that it evaluates by kernel reduction; each step consumes at
least one byte, so the input length is always enough fuel. -/
def utf8DecodeFuel : Nat → List Nat → Option (List Nat)
  | _, [] => some []
  | 0, _ :: _ => none
  | fuel + 1, b :: rest =>
    (match utf8DecodeOne (b :: rest) with
     | none => none
     | some (c, rem) => (utf8DecodeFuel fuel rem).map (fun t => c :: t))

/-- Strict UTF-8 decoding of a byte string to its scalar values. -/
def utf8Decode (l : List Nat) : Option (List Nat) := utf8DecodeFuel l.length l

theorem utf8DecodeFuel_congr (f1 : Nat) : ∀ (f2 : Nat) (l : List Nat),
    l.length ≤ f1 → l.length ≤ f2 → utf8DecodeFuel f1 l = utf8DecodeFuel f2 l := by
  induction f1 with
  | zero =>
    intro f2 l h1 _
    have : l = [] := by
      cases l with
      | nil => rfl
      | cons b rest => simp at h1
    subst this
    cases f2 <;> rfl
  | succ f ih =>
    intro f2 l h1 h2
    cases l with
    | nil => cases f2 <;> rfl
    | cons b rest =>
      cases f2 with
      | zero => simp at h2
      | succ f2p =>
        rw [utf8DecodeFuel, utf8DecodeFuel]
        cases hone : utf8DecodeOne (b :: rest) with
        | none => rfl
        | some crem =>
          obtain ⟨c, rem⟩ := crem
          have hlt := utf8DecodeOne_length _ _ _ hone
          simp only [List.length_cons] at hlt h1 h2
          simp only [ih f2p rem (by omega) (by omega)]

theorem utf8Decode_step (l : List Nat) (c : Nat) (rem : List Nat)
    (h : utf8DecodeOne l = some (c, rem)) :
    utf8Decode l = (utf8Decode rem).map (fun t => c :: t) := by
  obtain ⟨b, rest, rfl⟩ : ∃ b rest, l = b :: rest := by
    cases l with
    | nil => simp [utf8DecodeOne] at h
    | cons b rest => exact ⟨b, rest, rfl⟩
  rw [utf8Decode, show (b :: rest).length = rest.length + 1 from by simp]
  rw [utf8DecodeFuel]
  simp only [h]
  have hlt := utf8DecodeOne_length _ _ _ h
  simp only [List.length_cons] at hlt
  rw [utf8DecodeFuel_congr rest.length rem.length rem (by omega) (le_refl _)]
  rfl

theorem utf8EncodeChar_lt_256 (c : Nat) (h : c < 1114112) :
    ∀ b ∈ utf8EncodeChar c, b < 256 := by
  intro b hb
  rw [utf8EncodeChar] at hb
  split at hb
  · simp at hb; omega
  · split at hb
    · simp at hb
      rcases hb with h1 | h1 <;> omega
    · split at hb
      · simp at hb
        rcases hb with h1 | h1 | h1 <;> omega
      · simp at hb
        rcases hb with h1 | h1 | h1 | h1 <;> omega

theorem utf8DecodeOne_encodeChar (c : Nat) (h : ValidScalar c) (rest : List Nat) :
    utf8DecodeOne (utf8EncodeChar c ++ rest) = some (c, rest) := by
  obtain ⟨h1, h2⟩ := h
  rw [utf8EncodeChar]
  by_cases hc1 : c < 128
  · rw [if_pos hc1]
    show utf8DecodeOne (c :: rest) = _
    rw [utf8DecodeOne, if_pos (by omega : c ≤ 127)]
  · rw [if_neg hc1]
    by_cases hc2 : c < 2048
    · rw [if_pos hc2]
      show utf8DecodeOne ((192 + c / 64) :: (128 + c % 64) :: rest) = _
      rw [utf8DecodeOne]
      rw [if_neg (by omega), if_pos (by omega : 194 ≤ 192 + c / 64 ∧ 192 + c / 64 ≤ 223)]
      rw [utf8Two]
      rw [if_pos (by constructor <;> [omega; omega] : utf8Cont (128 + c % 64))]
      have : (192 + c / 64 - 192) * 64 + (128 + c % 64 - 128) = c := by omega
      rw [this]
    · rw [if_neg hc2]
      by_cases hc3 : c < 65536
      · rw [if_pos hc3]
        show utf8DecodeOne ((224 + c / 4096) :: (128 + c / 64 % 64) :: (128 + c % 64) :: rest) = _
        rw [utf8DecodeOne]
        rw [if_neg (by omega), if_neg (by omega),
            if_pos (by omega : 224 ≤ 224 + c / 4096 ∧ 224 + c / 4096 ≤ 239)]
        rw [utf8Three]
        rw [if_pos ?hcond]
        case hcond =>
          refine ⟨?_, by constructor <;> omega⟩
          by_cases he : 224 + c / 4096 = 224
          · rw [if_pos he]
            have hr : 2048 ≤ c ∧ c < 4096 := by omega
            have : 32 ≤ c / 64 ∧ c / 64 < 64 := by omega
            constructor <;> omega
          · rw [if_neg he]
            by_cases hd : 224 + c / 4096 = 237
            · rw [if_pos hd]
              have : c / 4096 = 13 := by omega
              have hcc : 53248 ≤ c ∧ c < 57344 := by omega
              have : c < 55296 := by omega
              have : 832 ≤ c / 64 ∧ c / 64 ≤ 863 := by omega
              constructor <;> omega
            · rw [if_neg hd]
              constructor <;> omega
        have : (224 + c / 4096 - 224) * 4096 + (128 + c / 64 % 64 - 128) * 64
                + (128 + c % 64 - 128) = c := by omega
        rw [this]
      · rw [if_neg hc3]
        show utf8DecodeOne ((240 + c / 262144) :: (128 + c / 4096 % 64)
              :: (128 + c / 64 % 64) :: (128 + c % 64) :: rest) = _
        rw [utf8DecodeOne]
        rw [if_neg (by omega), if_neg (by omega), if_neg (by omega)]
        rw [if_pos (by omega : 240 ≤ 240 + c / 262144 ∧ 240 + c / 262144 ≤ 244)]
        rw [utf8Four]
        rw [if_pos ?hcond4]
        case hcond4 =>
          refine ⟨?_, by constructor <;> omega, by constructor <;> omega⟩
          by_cases he : 240 + c / 262144 = 240
          · rw [if_pos he]
            have hr : 65536 ≤ c ∧ c < 262144 := by omega
            have : 16 ≤ c / 4096 ∧ c / 4096 < 64 := by omega
            constructor <;> omega
          · rw [if_neg he]
            by_cases hd : 240 + c / 262144 = 244
            · rw [if_pos hd]
              have : c / 262144 = 4 := by omega
              have : 1048576 ≤ c ∧ c ≤ 1114111 := by omega
              have : 256 ≤ c / 4096 ∧ c / 4096 ≤ 271 := by omega
              constructor <;> omega
            · rw [if_neg hd]
              constructor <;> omega
        have : (240 + c / 262144 - 240) * 262144 + (128 + c / 4096 % 64 - 128) * 4096
                + (128 + c / 64 % 64 - 128) * 64 + (128 + c % 64 - 128) = c := by omega
        rw [this]

theorem utf8Decode_encodeChar_prepend (c : Nat) (h : ValidScalar c)
    (rest : List Nat) :
    utf8Decode (utf8EncodeChar c ++ rest) = (utf8Decode rest).map (fun t => c :: t) :=
  utf8Decode_step _ c rest (utf8DecodeOne_encodeChar c h rest)

/-- Decoding inverts encoding on every valid text (the fixed character
encoding round-trips). -/
theorem utf8_round_trip (text : List Nat) (h : ∀ c ∈ text, ValidScalar c) :
    utf8Decode (utf8Encode text) = some text := by
  induction text with
  | nil => rfl
  | cons c t ih =>
    rw [utf8Encode, List.map_cons, List.flatten_cons]
    rw [utf8Decode_encodeChar_prepend c (h c (by simp))]
    rw [show (t.map utf8EncodeChar).flatten = utf8Encode t from rfl]
    rw [ih (fun x hx => h x (by simp [hx]))]
    rfl

theorem utf8Encode_lt_256 (text : List Nat) (h : ∀ c ∈ text, ValidScalar c) :
    ∀ b ∈ utf8Encode text, b < 256 := by
  intro b hb
  rw [utf8Encode] at hb
  simp only [List.mem_flatten, List.mem_map] at hb
  obtain ⟨l, ⟨c, hc, rfl⟩, hbl⟩ := hb
  exact utf8EncodeChar_lt_256 c (h c hc).1 b hbl

/-! ### binascii hexlify / unhexlify and base64.b16encode / b16decode -/

/-- All elements of the list are bytes. -/
def Bytes (l : List Nat) : Prop := ∀ b ∈ l, b < 256

/-- Lowercase hexadecimal digit of a value below 16. -/
def hexDigitLower (v : Nat) : Nat := if v < 10 then 48 + v else 87 + v

/-- Uppercase hexadecimal digit of a value below 16. -/
def hexDigitUpper (v : Nat) : Nat := if v < 10 then 48 + v else 55 + v

/-- `binascii.hexlify`: two lowercase hex digits per byte. -/
def hexlify : List Nat → List Nat
  | [] => []
  | b :: rest => hexDigitLower (b / 16) :: hexDigitLower (b % 16) :: hexlify rest

/-- Value of a hex digit, either case (`binascii.unhexlify` accepts both). -/
def hexVal (c : Nat) : Option Nat :=
  if 48 ≤ c ∧ c ≤ 57 then some (c - 48)
  else if 97 ≤ c ∧ c ≤ 102 then some (c - 87)
  else if 65 ≤ c ∧ c ≤ 70 then some (c - 55)
  else none

/-- `binascii.unhexlify`: pairs of hex digits back to bytes; an odd-length
input or a non-hex digit raises `binascii.Error` (a `ValueError`). -/
def unhexlify : List Nat → Option (List Nat)
  | [] => some []
  | c1 :: c2 :: rest =>
    (match hexVal c1, hexVal c2 with
     | some v1, some v2 => (unhexlify rest).map (fun t => (v1 * 16 + v2) :: t)
     | _, _ => none)
  | _ => none

/-- `base64.b16encode`: `hexlify` followed by `str.upper`, written directly
with uppercase digits. -/
def b16encode : List Nat → List Nat
  | [] => []
  | b :: rest => hexDigitUpper (b / 16) :: hexDigitUpper (b % 16) :: b16encode rest

/-- Uppercase-hex alphabet test used by `b16decode` (regex `[^0-9A-F]`). -/
def isB16Digit (c : Nat) : Bool := (48 ≤ c && c ≤ 57) || (65 ≤ c && c ≤ 70)

/-- `base64.b16decode` with `casefold=False`: reject any character outside
`0-9A-F`, then `unhexlify`. -/
def b16decode (l : List Nat) : Option (List Nat) :=
  if l.all isB16Digit then unhexlify l else none

theorem hexVal_hexDigitLower : ∀ v < 16, hexVal (hexDigitLower v) = some v := by decide

theorem hexVal_hexDigitUpper : ∀ v < 16, hexVal (hexDigitUpper v) = some v := by decide

theorem isB16Digit_hexDigitUpper : ∀ v < 16, isB16Digit (hexDigitUpper v) = true := by decide

/-- `unhexlify` inverts `hexlify` on every byte string. -/
theorem unhexlify_hexlify (l : List Nat) (h : Bytes l) :
    unhexlify (hexlify l) = some l := by
  induction l with
  | nil => rfl
  | cons b rest ih =>
    have hb : b < 256 := h b (by simp)
    rw [hexlify, unhexlify]
    rw [hexVal_hexDigitLower _ (by omega), hexVal_hexDigitLower _ (by omega)]
    rw [ih (fun x hx => h x (by simp [hx]))]
    have : b / 16 * 16 + b % 16 = b := by omega
    simp [this]

/-- `unhexlify` also inverts the uppercase variant `b16encode`. -/
theorem unhexlify_b16encode (l : List Nat) (h : Bytes l) :
    unhexlify (b16encode l) = some l := by
  induction l with
  | nil => rfl
  | cons b rest ih =>
    have hb : b < 256 := h b (by simp)
    rw [b16encode, unhexlify]
    rw [hexVal_hexDigitUpper _ (by omega), hexVal_hexDigitUpper _ (by omega)]
    rw [ih (fun x hx => h x (by simp [hx]))]
    have : b / 16 * 16 + b % 16 = b := by omega
    simp [this]

theorem b16encode_all_digits (l : List Nat) (h : Bytes l) :
    (b16encode l).all isB16Digit = true := by
  induction l with
  | nil => rfl
  | cons b rest ih =>
    have hb : b < 256 := h b (by simp)
    rw [b16encode]
    simp only [List.all_cons, Bool.and_eq_true]
    refine ⟨isB16Digit_hexDigitUpper _ (by omega), isB16Digit_hexDigitUpper _ (by omega), ?_⟩
    exact ih (fun x hx => h x (by simp [hx]))

/-- `b16decode` inverts `b16encode` on every byte string. -/
theorem b16decode_b16encode (l : List Nat) (h : Bytes l) :
    b16decode (b16encode l) = some l := by
  rw [b16decode, if_pos (b16encode_all_digits l h)]
  exact unhexlify_b16encode l h

/-! ### base64.b64encode / b64decode

`b64encode` is `binascii.b2a_base64(s, newline=False)`: groups of three bytes
become four alphabet characters, a trailing group of one or two bytes is
completed with `=` padding.  `b64decode` is `binascii.a2b_base64` in
non-strict mode: characters outside the alphabet are skipped, bytes are
emitted as each quad fills, padding that completes a quad stops the decode,
and a final partial quad raises `binascii.Error`. -/

/-- Standard base64 alphabet character of a 6-bit value. -/
def b64char (v : Nat) : Nat :=
  if v < 26 then 65 + v
  else if v < 52 then 71 + v
  else if v < 62 then v - 4
  else if v = 62 then 43
  else 47

/-- Value of a standard base64 alphabet character. -/
def b64val (c : Nat) : Option Nat :=
  if 65 ≤ c ∧ c ≤ 90 then some (c - 65)
  else if 97 ≤ c ∧ c ≤ 122 then some (c - 71)
  else if 48 ≤ c ∧ c ≤ 57 then some (c + 4)
  else if c = 43 then some 62
  else if c = 47 then some 63
  else none

/-- `base64.b64encode` (no newline). -/
def b64encode : List Nat → List Nat
  | [] => []
  | [b1] => [b64char (b1 / 4), b64char (b1 % 4 * 16), 61, 61]
  | [b1, b2] => [b64char (b1 / 4), b64char (b1 % 4 * 16 + b2 / 16), b64char (b2 % 16 * 4), 61]
  | b1 :: b2 :: b3 :: rest =>
    b64char (b1 / 4) :: b64char (b1 % 4 * 16 + b2 / 16)
      :: b64char (b2 % 16 * 4 + b3 / 64) :: b64char (b3 % 64) :: b64encode rest

/-- Core loop of `binascii.a2b_base64` (non-strict): state is the position in
the current quad, the pending bits and the count of consecutive pad
characters. -/
def b64core : List Nat → Nat → Nat → Nat → Option (List Nat)
  | [], quad_pos, _, _ => if quad_pos = 0 then some [] else none
  | c :: rest, quad_pos, leftchar, pads =>
    if c = 61 then
      if 2 ≤ quad_pos ∧ 4 ≤ quad_pos + (pads + 1) then some []
      else b64core rest quad_pos leftchar (pads + 1)
    else
      (match b64val c with
       | none => b64core rest quad_pos leftchar pads
       | some v =>
         match quad_pos with
         | 0 => b64core rest 1 v 0
         | 1 => (b64core rest 2 (v % 16) 0).map (fun t => (leftchar * 4 + v / 16) :: t)
         | 2 => (b64core rest 3 (v % 4) 0).map (fun t => (leftchar * 16 + v / 4) :: t)
         | _ => (b64core rest 0 0 0).map (fun t => (leftchar * 64 + v) :: t))

/-- `base64.b64decode` with default arguments. -/
def b64decode (l : List Nat) : Option (List Nat) := b64core l 0 0 0

theorem b64val_b64char : ∀ v < 64, b64val (b64char v) = some v := by decide

theorem b64char_ne_61 : ∀ v < 64, b64char v ≠ 61 := by decide

theorem b64core_pad_stop (rest : List Nat) (qp lc pads : Nat)
    (h : 2 ≤ qp ∧ 4 ≤ qp + (pads + 1)) :
    b64core (61 :: rest) qp lc pads = some [] := by
  rw [b64core, if_pos rfl, if_pos h]

theorem b64core_pad_cont (rest : List Nat) (qp lc pads : Nat)
    (h : ¬(2 ≤ qp ∧ 4 ≤ qp + (pads + 1))) :
    b64core (61 :: rest) qp lc pads = b64core rest qp lc (pads + 1) := by
  rw [b64core, if_pos rfl, if_neg h]

theorem b64core_step0 (c : Nat) (rest : List Nat) (lc pads v : Nat)
    (hv : b64val c = some v) (hne : c ≠ 61) :
    b64core (c :: rest) 0 lc pads = b64core rest 1 v 0 := by
  rw [b64core, if_neg hne, hv]

theorem b64core_step1 (c : Nat) (rest : List Nat) (lc pads v : Nat)
    (hv : b64val c = some v) (hne : c ≠ 61) :
    b64core (c :: rest) 1 lc pads
      = (b64core rest 2 (v % 16) 0).map (fun t => (lc * 4 + v / 16) :: t) := by
  rw [b64core, if_neg hne, hv]

theorem b64core_step2 (c : Nat) (rest : List Nat) (lc pads v : Nat)
    (hv : b64val c = some v) (hne : c ≠ 61) :
    b64core (c :: rest) 2 lc pads
      = (b64core rest 3 (v % 4) 0).map (fun t => (lc * 16 + v / 4) :: t) := by
  rw [b64core, if_neg hne, hv]

theorem b64core_step3 (c : Nat) (rest : List Nat) (lc pads v : Nat)
    (hv : b64val c = some v) (hne : c ≠ 61) :
    b64core (c :: rest) 3 lc pads
      = (b64core rest 0 0 0).map (fun t => (lc * 64 + v) :: t) := by
  rw [b64core, if_neg hne, hv]

/-- `b64decode` inverts `b64encode` on every byte string. -/
theorem b64decode_b64encode (l : List Nat) (h : Bytes l) :
    b64decode (b64encode l) = some l := by
  rw [b64decode]
  induction l using b64encode.induct with
  | case1 => rfl
  | case2 b1 =>
    have hb1 : b1 < 256 := h b1 (by simp)
    rw [b64encode]
    rw [b64core_step0 _ _ _ _ _ (b64val_b64char _ (by omega)) (b64char_ne_61 _ (by omega))]
    rw [b64core_step1 _ _ _ _ _ (b64val_b64char _ (by omega)) (b64char_ne_61 _ (by omega))]
    rw [b64core_pad_cont _ _ _ _ (by omega)]
    rw [b64core_pad_stop _ _ _ _ (by omega)]
    simp
    omega
  | case3 b1 b2 =>
    have hb1 : b1 < 256 := h b1 (by simp)
    have hb2 : b2 < 256 := h b2 (by simp)
    rw [b64encode]
    rw [b64core_step0 _ _ _ _ _ (b64val_b64char _ (by omega)) (b64char_ne_61 _ (by omega))]
    rw [b64core_step1 _ _ _ _ _ (b64val_b64char _ (by omega)) (b64char_ne_61 _ (by omega))]
    rw [b64core_step2 _ _ _ _ _ (b64val_b64char _ (by omega)) (b64char_ne_61 _ (by omega))]
    rw [b64core_pad_stop _ _ _ _ (by omega)]
    simp
    omega
  | case4 b1 b2 b3 rest ih =>
    have hb1 : b1 < 256 := h b1 (by simp)
    have hb2 : b2 < 256 := h b2 (by simp)
    have hb3 : b3 < 256 := h b3 (by simp)
    rw [b64encode]
    rw [b64core_step0 _ _ _ _ _ (b64val_b64char _ (by omega)) (b64char_ne_61 _ (by omega))]
    rw [b64core_step1 _ _ _ _ _ (b64val_b64char _ (by omega)) (b64char_ne_61 _ (by omega))]
    rw [b64core_step2 _ _ _ _ _ (b64val_b64char _ (by omega)) (b64char_ne_61 _ (by omega))]
    rw [b64core_step3 _ _ _ _ _ (b64val_b64char _ (by omega)) (b64char_ne_61 _ (by omega))]
    rw [ih (fun x hx => h x (by simp [hx]))]
    simp
    omega

/-! ### base64.b32encode / b32decode and the base32hex variants

`_b32encode` pads the input to a multiple of five bytes, emits eight 5-bit
alphabet characters per 40-bit group, then overwrites the tail with `=`
according to the leftover; `_b32decode` requires a length divisible by 8,
right-strips `=`, folds each 8-character quantum into a 40-bit accumulator
(5 bytes), and rebuilds the final partial quantum from the pad count. -/

/-- The eight 5-bit characters of one 40-bit group. -/
def b32group (al : Nat → Nat) (b1 b2 b3 b4 b5 : Nat) : List Nat :=
  [al (b1 / 8), al (b1 % 8 * 4 + b2 / 64), al (b2 / 2 % 32), al (b2 % 2 * 16 + b3 / 16),
   al (b3 % 16 * 2 + b4 / 128), al (b4 / 4 % 32), al (b4 % 4 * 8 + b5 / 32), al (b5 % 32)]

/-- `base64._b32encode` over an abstract alphabet. -/
def b32encodeGen (al : Nat → Nat) : List Nat → List Nat
  | [] => []
  | [b1] => (b32group al b1 0 0 0 0).take 2 ++ List.replicate 6 61
  | [b1, b2] => (b32group al b1 b2 0 0 0).take 4 ++ List.replicate 4 61
  | [b1, b2, b3] => (b32group al b1 b2 b3 0 0).take 5 ++ List.replicate 3 61
  | [b1, b2, b3, b4] => (b32group al b1 b2 b3 b4 0).take 7 ++ List.replicate 1 61
  | b1 :: b2 :: b3 :: b4 :: b5 :: rest => b32group al b1 b2 b3 b4 b5 ++ b32encodeGen al rest

/-- Python `bytes.rstrip` of the pad character `=`. -/
def rstripEq (l : List Nat) : List Nat :=
  (l.reverse.dropWhile (fun c => c == 61)).reverse

/-- Fold one quantum of alphabet characters into the accumulator
(`acc = (acc << 5) + b32rev[c]`), failing on a non-alphabet character. -/
def b32quanta (rev : Nat → Option Nat) : Nat → List Nat → Option Nat
  | acc, [] => some acc
  | acc, c :: rest =>
    (match rev c with
     | none => none
     | some v => b32quanta rev (acc * 32 + v) rest)

/-- `acc.to_bytes(5)` big endian (the accumulator never reaches `2 ^ 40`,
so the moduli are exact). -/
def accBytes5 (acc : Nat) : List Nat :=
  [acc / 4294967296 % 256, acc / 16777216 % 256, acc / 65536 % 256,
   acc / 256 % 256, acc % 256]

/-- Accumulators of the successive 8-character quanta. -/
def b32accs (rev : Nat → Option Nat) : List Nat → Option (List Nat)
  | [] => some []
  | c :: rest =>
    (match b32quanta rev 0 ((c :: rest).take 8) with
     | none => none
     | some acc =>
       (match b32accs rev ((c :: rest).drop 8) with
        | none => none
        | some tl => some (acc :: tl)))
termination_by l => l.length
decreasing_by simp [List.length_drop]; omega

/-- Python list slicing `l[:-n]`. -/
def dropLastN (n : Nat) (l : List Nat) : List Nat := l.take (l.length - n)

/-- `base64._b32decode` after the length check and the `=`-strip: `s` is the
stripped input and `padchars` the number of stripped pad characters. -/
def b32decodeTail (rev : Nat → Option Nat) (s : List Nat) (padchars : Nat) :
    Option (List Nat) :=
  match b32accs rev s with
  | none => none
  | some accs =>
    let decoded := (accs.map accBytes5).flatten
    if padchars = 0 then some decoded
    else if ¬(padchars = 1 ∨ padchars = 3 ∨ padchars = 4 ∨ padchars = 6) then none
    else if decoded = [] then some decoded
    else
      let acc := accs.getLastD 0
      let acc2 := acc * 2 ^ (5 * padchars)
      let leftover := (43 - 5 * padchars) / 8
      some (dropLastN 5 decoded ++ (accBytes5 acc2).take leftover)

/-- `base64._b32decode` over an abstract reverse alphabet. -/
def b32decodeGen (rev : Nat → Option Nat) (l : List Nat) : Option (List Nat) :=
  if l.length % 8 ≠ 0 then none
  else b32decodeTail rev (rstripEq l) (l.length - (rstripEq l).length)

/-- The base32 alphabet `A`-`Z` `2`-`7`. -/
def b32char (v : Nat) : Nat := if v < 26 then 65 + v else 24 + v

/-- Reverse base32 alphabet. -/
def b32revChar (c : Nat) : Option Nat :=
  if 65 ≤ c ∧ c ≤ 90 then some (c - 65)
  else if 50 ≤ c ∧ c ≤ 55 then some (c - 24)
  else none

/-- The base32hex alphabet `0`-`9` `A`-`V`. -/
def b32hexchar (v : Nat) : Nat := if v < 10 then 48 + v else 55 + v

/-- Reverse base32hex alphabet. -/
def b32hexrevChar (c : Nat) : Option Nat :=
  if 48 ≤ c ∧ c ≤ 57 then some (c - 48)
  else if 65 ≤ c ∧ c ≤ 86 then some (c - 55)
  else none

/-- `base64.b32encode`. -/
def b32encode : List Nat → List Nat := b32encodeGen b32char

/-- `base64.b32decode` with default arguments. -/
def b32decode : List Nat → Option (List Nat) := b32decodeGen b32revChar

/-- `base64.b32hexencode`. -/
def b32hexencode : List Nat → List Nat := b32encodeGen b32hexchar

/-- `base64.b32hexdecode` with default arguments. -/
def b32hexdecode : List Nat → Option (List Nat) := b32decodeGen b32hexrevChar

theorem b32revChar_b32char : ∀ v < 32, b32revChar (b32char v) = some v := by decide

theorem b32char_ne_61 : ∀ v < 32, b32char v ≠ 61 := by decide

theorem b32hexrevChar_b32hexchar : ∀ v < 32, b32hexrevChar (b32hexchar v) = some v := by
  decide

theorem b32hexchar_ne_61 : ∀ v < 32, b32hexchar v ≠ 61 := by decide

theorem dropWhile_eq_self_of_all {p : Nat → Bool} {l : List Nat}
    (h : ∀ c ∈ l, p c = false) : l.dropWhile p = l := by
  cases l with
  | nil => rfl
  | cons c rest => rw [List.dropWhile_cons_of_neg (by simp [h c (by simp)])]

/-- Right-stripping pads removes exactly an appended block of pads. -/
theorem rstripEq_append_pad (a : List Nat) (k : Nat) :
    rstripEq (a ++ List.replicate k 61) = rstripEq a := by
  rw [rstripEq, rstripEq, List.reverse_append, List.reverse_replicate]
  congr 1
  induction k with
  | zero => rfl
  | succ n ih =>
    rw [List.replicate_succ, List.cons_append, List.dropWhile_cons_of_pos (by simp)]
    exact ih

/-- Right-stripping does not change a pad-free list. -/
theorem rstripEq_no_pad (a : List Nat) (h : ∀ c ∈ a, c ≠ 61) : rstripEq a = a := by
  rw [rstripEq, dropWhile_eq_self_of_all, List.reverse_reverse]
  intro c hc
  simp only [beq_eq_false_iff_ne, ne_eq]
  exact h c (by simpa using hc)

/-- Right-stripping past a pad-free prefix. -/
theorem rstripEq_append_no_pad (a b : List Nat) (h : ∀ c ∈ a, c ≠ 61) :
    rstripEq (a ++ b) = a ++ rstripEq b := by
  rw [rstripEq, List.reverse_append, List.dropWhile_append]
  split
  · rename_i hemp
    have hemp2 : List.dropWhile (fun c => c == 61) b.reverse = [] := by simpa using hemp
    have hb : rstripEq b = [] := by
      rw [rstripEq, hemp2]
      rfl
    rw [hb, List.append_nil]
    have := rstripEq_no_pad a h
    rw [rstripEq] at this
    exact this
  · rw [List.reverse_append, List.reverse_reverse]
    rw [show (List.dropWhile (fun c => c == 61) b.reverse).reverse = rstripEq b from rfl]

/-- A list whose head is not a pad does not strip to nothing. -/
theorem rstripEq_cons_ne_nil (c : Nat) (tl : List Nat) (h : c ≠ 61) :
    rstripEq (c :: tl) ≠ [] := by
  rw [rstripEq]
  simp only [ne_eq, List.reverse_eq_nil_iff, List.dropWhile_eq_nil_iff]
  intro hall
  have := hall c (by simp)
  simp only [beq_iff_eq] at this
  exact h this

theorem b32encodeGen_length_mod (al : Nat → Nat) (l : List Nat) :
    (b32encodeGen al l).length % 8 = 0 := by
  induction l using b32encodeGen.induct al with
  | case1 => rfl
  | case2 b1 => simp [b32encodeGen, b32group]
  | case3 b1 b2 => simp [b32encodeGen, b32group]
  | case4 b1 b2 b3 => simp [b32encodeGen, b32group]
  | case5 b1 b2 b3 b4 => simp [b32encodeGen, b32group]
  | case6 b1 b2 b3 b4 b5 rest ih =>
    rw [b32encodeGen]
    simp only [List.length_append, b32group, List.length_cons, List.length_nil]
    omega

theorem b32quanta_nil (rev : Nat → Option Nat) (acc : Nat) :
    b32quanta rev acc [] = some acc := rfl

theorem b32quanta_cons (rev : Nat → Option Nat) (acc c v : Nat) (rest : List Nat)
    (hv : rev c = some v) :
    b32quanta rev acc (c :: rest) = b32quanta rev (acc * 32 + v) rest := by
  rw [b32quanta, hv]

theorem b32accs_nil (rev : Nat → Option Nat) : b32accs rev [] = some [] := by
  rw [b32accs]

theorem b32accs_cons_eq (rev : Nat → Option Nat) (c : Nat) (rest : List Nat) :
    b32accs rev (c :: rest) =
      (match b32quanta rev 0 ((c :: rest).take 8) with
       | none => none
       | some acc =>
         (match b32accs rev ((c :: rest).drop 8) with
          | none => none
          | some tl => some (acc :: tl))) := by
  rw [b32accs]

theorem accBytes5_length (acc : Nat) : (accBytes5 acc).length = 5 := rfl

theorem dropLastN_append (n : Nat) (a d : List Nat) (h : n ≤ d.length) :
    dropLastN n (a ++ d) = a ++ dropLastN n d := by
  rw [dropLastN, dropLastN, List.length_append]
  rw [List.take_append_eq_append_take]
  congr 1
  · exact List.take_of_length_le (by omega)
  · congr 1
    omega

/-- Peeling one full 8-character quantum off the front of the stripped input
prepends its five bytes to the decode of the remainder. -/
theorem b32decodeTail_group (rev : Nat → Option Nat) (g : List Nat) (acc : Nat)
    (hlen : g.length = 8) (hq : b32quanta rev 0 g = some acc)
    (s : List Nat) (pc : Nat) (hnil : s = [] → pc = 0) :
    b32decodeTail rev (g ++ s) pc
      = (b32decodeTail rev s pc).map (fun t => accBytes5 acc ++ t) := by
  have hgcons : ∃ c rest, g = c :: rest := by
    cases g with
    | nil => simp at hlen
    | cons c rest => exact ⟨c, rest, rfl⟩
  obtain ⟨c, grest, rfl⟩ := hgcons
  rw [b32decodeTail, b32decodeTail]
  rw [show (c :: grest) ++ s = c :: (grest ++ s) from rfl]
  rw [b32accs_cons_eq]
  have htake : (c :: (grest ++ s)).take 8 = c :: grest := by
    have : c :: (grest ++ s) = (c :: grest) ++ s := rfl
    rw [this, ← hlen]
    exact List.take_left (c :: grest) s
  have hdrop : (c :: (grest ++ s)).drop 8 = s := by
    have : c :: (grest ++ s) = (c :: grest) ++ s := rfl
    rw [this, ← hlen]
    exact List.drop_left (c :: grest) s
  rw [htake, hdrop, hq]
  cases hs : b32accs rev s with
  | none => rfl
  | some accs =>
    cases hsnil : s with
    | nil =>
      subst hsnil
      rw [b32accs_nil] at hs
      cases hs
      have hpc := hnil rfl
      subst hpc
      simp [b32accs_nil]
    | cons c2 srest =>
      subst hsnil
      rw [b32accs_cons_eq] at hs
      have haccscons : ∃ a tl, accs = a :: tl := by
        cases hq2 : b32quanta rev 0 ((c2 :: srest).take 8) with
        | none => rw [hq2] at hs; cases hs
        | some a =>
          rw [hq2] at hs
          cases hs2 : b32accs rev ((c2 :: srest).drop 8) with
          | none => rw [hs2] at hs; cases hs
          | some tl =>
            rw [hs2] at hs
            simp at hs
            exact ⟨a, tl, hs.symm⟩
      obtain ⟨a, tl, rfl⟩ := haccscons
      simp only [List.map_cons, List.flatten_cons]
      by_cases hpc0 : pc = 0
      · subst hpc0
        simp
      · rw [if_neg hpc0, if_neg hpc0]
        by_cases hpcset : pc = 1 ∨ pc = 3 ∨ pc = 4 ∨ pc = 6
        · rw [if_neg (not_not_intro hpcset), if_neg (not_not_intro hpcset)]
          have hdneL : ¬(accBytes5 acc ++ (accBytes5 a ++ (List.map accBytes5 tl).flatten)
              = []) := by simp [accBytes5]
          have hdneS : ¬(accBytes5 a ++ (List.map accBytes5 tl).flatten = []) := by
            simp [accBytes5]
          rw [if_neg hdneL, if_neg hdneS]
          have hlast : (acc :: a :: tl).getLastD 0 = (a :: tl).getLastD 0 := by
            simp [List.getLastD_eq_getLast?]
          rw [hlast]
          have hdlen : 5 ≤ (accBytes5 a ++ (List.map accBytes5 tl).flatten).length := by
            simp [accBytes5]
          rw [dropLastN_append _ _ _ hdlen]
          simp
        · rw [if_pos hpcset, if_pos hpcset]
          rfl

theorem b32group_mem_ne_61 (al : Nat → Nat) (hne : ∀ v < 32, al v ≠ 61)
    (b1 b2 b3 b4 b5 : Nat) (h1 : b1 < 256) (h2 : b2 < 256) (h3 : b3 < 256)
    (h4 : b4 < 256) (h5 : b5 < 256) :
    ∀ c ∈ b32group al b1 b2 b3 b4 b5, c ≠ 61 := by
  intro c hc
  simp only [b32group, List.mem_cons, List.not_mem_nil, or_false] at hc
  rcases hc with h | h | h | h | h | h | h | h <;> subst h <;> exact hne _ (by omega)

/-- A non-empty byte string never encodes and strips to the empty string:
the first character is an alphabet character, not a pad. -/
theorem b32encodeGen_strip_ne_nil (al : Nat → Nat) (hne : ∀ v < 32, al v ≠ 61)
    (l : List Nat) :
    Bytes l → l ≠ [] → rstripEq (b32encodeGen al l) ≠ [] := by
  induction l using b32encodeGen.induct al with
  | case1 =>
    intro _ hl
    exact absurd rfl hl
  | case2 b1 =>
    intro h _
    have hb1 : b1 < 256 := h b1 (by simp)
    rw [b32encodeGen, rstripEq_append_pad,
        rstripEq_no_pad _ (fun c hc =>
          b32group_mem_ne_61 al hne b1 0 0 0 0 hb1 (by omega) (by omega) (by omega)
            (by omega) c (List.take_subset 2 _ hc))]
    simp [b32group]
  | case3 b1 b2 =>
    intro h _
    have hb1 : b1 < 256 := h b1 (by simp)
    have hb2 : b2 < 256 := h b2 (by simp)
    rw [b32encodeGen, rstripEq_append_pad,
        rstripEq_no_pad _ (fun c hc =>
          b32group_mem_ne_61 al hne b1 b2 0 0 0 hb1 hb2 (by omega) (by omega)
            (by omega) c (List.take_subset 4 _ hc))]
    simp [b32group]
  | case4 b1 b2 b3 =>
    intro h _
    have hb1 : b1 < 256 := h b1 (by simp)
    have hb2 : b2 < 256 := h b2 (by simp)
    have hb3 : b3 < 256 := h b3 (by simp)
    rw [b32encodeGen, rstripEq_append_pad,
        rstripEq_no_pad _ (fun c hc =>
          b32group_mem_ne_61 al hne b1 b2 b3 0 0 hb1 hb2 hb3 (by omega)
            (by omega) c (List.take_subset 5 _ hc))]
    simp [b32group]
  | case5 b1 b2 b3 b4 =>
    intro h _
    have hb1 : b1 < 256 := h b1 (by simp)
    have hb2 : b2 < 256 := h b2 (by simp)
    have hb3 : b3 < 256 := h b3 (by simp)
    have hb4 : b4 < 256 := h b4 (by simp)
    rw [b32encodeGen, rstripEq_append_pad,
        rstripEq_no_pad _ (fun c hc =>
          b32group_mem_ne_61 al hne b1 b2 b3 b4 0 hb1 hb2 hb3 hb4
            (by omega) c (List.take_subset 7 _ hc))]
    simp [b32group]
  | case6 b1 b2 b3 b4 b5 rest ih =>
    intro h _
    have hb1 : b1 < 256 := h b1 (by simp)
    have hb2 : b2 < 256 := h b2 (by simp)
    have hb3 : b3 < 256 := h b3 (by simp)
    have hb4 : b4 < 256 := h b4 (by simp)
    have hb5 : b5 < 256 := h b5 (by simp)
    rw [b32encodeGen,
        rstripEq_append_no_pad _ _ (b32group_mem_ne_61 al hne b1 b2 b3 b4 b5
          hb1 hb2 hb3 hb4 hb5)]
    simp [b32group]

theorem b32_round_trip_tail (al : Nat → Nat) (rev : Nat → Option Nat)
    (hrev : ∀ v < 32, rev (al v) = some v) (hne : ∀ v < 32, al v ≠ 61)
    (l : List Nat) :
    Bytes l →
      b32decodeTail rev (rstripEq (b32encodeGen al l))
        ((b32encodeGen al l).length - (rstripEq (b32encodeGen al l)).length)
        = some l := by
  induction l using b32encodeGen.induct al with
  | case1 =>
    intro _
    rw [show b32encodeGen al [] = [] from by rw [b32encodeGen]]
    rw [show rstripEq [] = [] from rfl]
    rw [b32decodeTail, b32accs_nil]
    rfl
  | case2 b1 =>
    intro h
    have hb1 : b1 < 256 := h b1 (by simp)
    rw [b32encodeGen, rstripEq_append_pad,
        rstripEq_no_pad _ (fun c hc =>
          b32group_mem_ne_61 al hne b1 0 0 0 0 hb1 (by omega) (by omega) (by omega)
            (by omega) c (List.take_subset 2 _ hc))]
    have htake : (b32group al b1 0 0 0 0).take 2 = [al (b1 / 8), al (b1 % 8 * 4)] := by
      simp [b32group]
    rw [htake]
    have hq : b32quanta rev 0 [al (b1 / 8), al (b1 % 8 * 4)]
        = some ((0 * 32 + b1 / 8) * 32 + b1 % 8 * 4) := by
      rw [b32quanta_cons _ _ _ _ _ (hrev _ (by omega)),
          b32quanta_cons _ _ _ _ _ (hrev _ (by omega)), b32quanta_nil]
    have haccs : b32accs rev [al (b1 / 8), al (b1 % 8 * 4)]
        = some [(0 * 32 + b1 / 8) * 32 + b1 % 8 * 4] := by
      rw [b32accs_cons_eq]
      rw [List.take_of_length_le (by simp)]
      simp only [hq, List.drop_succ_cons, List.drop_nil, b32accs_nil]
    simp only [b32decodeTail, haccs]
    simp [b32group, accBytes5, dropLastN, List.getLastD]
    omega
  | case3 b1 b2 =>
    intro h
    have hb1 : b1 < 256 := h b1 (by simp)
    have hb2 : b2 < 256 := h b2 (by simp)
    rw [b32encodeGen, rstripEq_append_pad,
        rstripEq_no_pad _ (fun c hc =>
          b32group_mem_ne_61 al hne b1 b2 0 0 0 hb1 hb2 (by omega) (by omega)
            (by omega) c (List.take_subset 4 _ hc))]
    have htake : (b32group al b1 b2 0 0 0).take 4
        = [al (b1 / 8), al (b1 % 8 * 4 + b2 / 64), al (b2 / 2 % 32), al (b2 % 2 * 16)] := by
      simp [b32group]
    rw [htake]
    have hq : b32quanta rev 0
        [al (b1 / 8), al (b1 % 8 * 4 + b2 / 64), al (b2 / 2 % 32), al (b2 % 2 * 16)]
        = some ((((0 * 32 + b1 / 8) * 32 + (b1 % 8 * 4 + b2 / 64)) * 32 + b2 / 2 % 32) * 32
            + b2 % 2 * 16) := by
      rw [b32quanta_cons _ _ _ _ _ (hrev _ (by omega)),
          b32quanta_cons _ _ _ _ _ (hrev _ (by omega)),
          b32quanta_cons _ _ _ _ _ (hrev _ (by omega)),
          b32quanta_cons _ _ _ _ _ (hrev _ (by omega)), b32quanta_nil]
    have haccs : b32accs rev
        [al (b1 / 8), al (b1 % 8 * 4 + b2 / 64), al (b2 / 2 % 32), al (b2 % 2 * 16)]
        = some [(((0 * 32 + b1 / 8) * 32 + (b1 % 8 * 4 + b2 / 64)) * 32 + b2 / 2 % 32) * 32
            + b2 % 2 * 16] := by
      rw [b32accs_cons_eq]
      rw [List.take_of_length_le (by simp)]
      simp only [hq, List.drop_succ_cons, List.drop_nil, b32accs_nil]
    simp only [b32decodeTail, haccs]
    simp [b32group, accBytes5, dropLastN, List.getLastD]
    omega
  | case4 b1 b2 b3 =>
    intro h
    have hb1 : b1 < 256 := h b1 (by simp)
    have hb2 : b2 < 256 := h b2 (by simp)
    have hb3 : b3 < 256 := h b3 (by simp)
    rw [b32encodeGen, rstripEq_append_pad,
        rstripEq_no_pad _ (fun c hc =>
          b32group_mem_ne_61 al hne b1 b2 b3 0 0 hb1 hb2 hb3 (by omega)
            (by omega) c (List.take_subset 5 _ hc))]
    have htake : (b32group al b1 b2 b3 0 0).take 5
        = [al (b1 / 8), al (b1 % 8 * 4 + b2 / 64), al (b2 / 2 % 32),
           al (b2 % 2 * 16 + b3 / 16), al (b3 % 16 * 2)] := by
      simp [b32group]
    rw [htake]
    have hq : b32quanta rev 0
        [al (b1 / 8), al (b1 % 8 * 4 + b2 / 64), al (b2 / 2 % 32),
         al (b2 % 2 * 16 + b3 / 16), al (b3 % 16 * 2)]
        = some (((((0 * 32 + b1 / 8) * 32 + (b1 % 8 * 4 + b2 / 64)) * 32 + b2 / 2 % 32) * 32
            + (b2 % 2 * 16 + b3 / 16)) * 32 + b3 % 16 * 2) := by
      rw [b32quanta_cons _ _ _ _ _ (hrev _ (by omega)),
          b32quanta_cons _ _ _ _ _ (hrev _ (by omega)),
          b32quanta_cons _ _ _ _ _ (hrev _ (by omega)),
          b32quanta_cons _ _ _ _ _ (hrev _ (by omega)),
          b32quanta_cons _ _ _ _ _ (hrev _ (by omega)), b32quanta_nil]
    have haccs : b32accs rev
        [al (b1 / 8), al (b1 % 8 * 4 + b2 / 64), al (b2 / 2 % 32),
         al (b2 % 2 * 16 + b3 / 16), al (b3 % 16 * 2)]
        = some [((((0 * 32 + b1 / 8) * 32 + (b1 % 8 * 4 + b2 / 64)) * 32 + b2 / 2 % 32) * 32
            + (b2 % 2 * 16 + b3 / 16)) * 32 + b3 % 16 * 2] := by
      rw [b32accs_cons_eq]
      rw [List.take_of_length_le (by simp)]
      simp only [hq, List.drop_succ_cons, List.drop_nil, b32accs_nil]
    simp only [b32decodeTail, haccs]
    simp [b32group, accBytes5, dropLastN, List.getLastD]
    omega
  | case5 b1 b2 b3 b4 =>
    intro h
    have hb1 : b1 < 256 := h b1 (by simp)
    have hb2 : b2 < 256 := h b2 (by simp)
    have hb3 : b3 < 256 := h b3 (by simp)
    have hb4 : b4 < 256 := h b4 (by simp)
    rw [b32encodeGen, rstripEq_append_pad,
        rstripEq_no_pad _ (fun c hc =>
          b32group_mem_ne_61 al hne b1 b2 b3 b4 0 hb1 hb2 hb3 hb4
            (by omega) c (List.take_subset 7 _ hc))]
    have htake : (b32group al b1 b2 b3 b4 0).take 7
        = [al (b1 / 8), al (b1 % 8 * 4 + b2 / 64), al (b2 / 2 % 32),
           al (b2 % 2 * 16 + b3 / 16), al (b3 % 16 * 2 + b4 / 128), al (b4 / 4 % 32),
           al (b4 % 4 * 8)] := by
      simp [b32group]
    rw [htake]
    have hq : b32quanta rev 0
        [al (b1 / 8), al (b1 % 8 * 4 + b2 / 64), al (b2 / 2 % 32),
         al (b2 % 2 * 16 + b3 / 16), al (b3 % 16 * 2 + b4 / 128), al (b4 / 4 % 32),
         al (b4 % 4 * 8)]
        = some (((((((0 * 32 + b1 / 8) * 32 + (b1 % 8 * 4 + b2 / 64)) * 32 + b2 / 2 % 32) * 32
            + (b2 % 2 * 16 + b3 / 16)) * 32 + (b3 % 16 * 2 + b4 / 128)) * 32
            + b4 / 4 % 32) * 32 + b4 % 4 * 8) := by
      rw [b32quanta_cons _ _ _ _ _ (hrev _ (by omega)),
          b32quanta_cons _ _ _ _ _ (hrev _ (by omega)),
          b32quanta_cons _ _ _ _ _ (hrev _ (by omega)),
          b32quanta_cons _ _ _ _ _ (hrev _ (by omega)),
          b32quanta_cons _ _ _ _ _ (hrev _ (by omega)),
          b32quanta_cons _ _ _ _ _ (hrev _ (by omega)),
          b32quanta_cons _ _ _ _ _ (hrev _ (by omega)), b32quanta_nil]
    have haccs : b32accs rev
        [al (b1 / 8), al (b1 % 8 * 4 + b2 / 64), al (b2 / 2 % 32),
         al (b2 % 2 * 16 + b3 / 16), al (b3 % 16 * 2 + b4 / 128), al (b4 / 4 % 32),
         al (b4 % 4 * 8)]
        = some [((((((0 * 32 + b1 / 8) * 32 + (b1 % 8 * 4 + b2 / 64)) * 32 + b2 / 2 % 32) * 32
            + (b2 % 2 * 16 + b3 / 16)) * 32 + (b3 % 16 * 2 + b4 / 128)) * 32
            + b4 / 4 % 32) * 32 + b4 % 4 * 8] := by
      rw [b32accs_cons_eq]
      rw [List.take_of_length_le (by simp)]
      simp only [hq, List.drop_succ_cons, List.drop_nil, b32accs_nil]
    simp only [b32decodeTail, haccs]
    simp [b32group, accBytes5, dropLastN, List.getLastD]
    omega
  | case6 b1 b2 b3 b4 b5 rest ih =>
    intro h
    have hb1 : b1 < 256 := h b1 (by simp)
    have hb2 : b2 < 256 := h b2 (by simp)
    have hb3 : b3 < 256 := h b3 (by simp)
    have hb4 : b4 < 256 := h b4 (by simp)
    have hb5 : b5 < 256 := h b5 (by simp)
    have hBrest : Bytes rest := fun x hx => h x (by simp [hx])
    have hgne := b32group_mem_ne_61 al hne b1 b2 b3 b4 b5 hb1 hb2 hb3 hb4 hb5
    rw [b32encodeGen, rstripEq_append_no_pad _ _ hgne]
    have hpc : (b32group al b1 b2 b3 b4 b5 ++ b32encodeGen al rest).length
        - (b32group al b1 b2 b3 b4 b5 ++ rstripEq (b32encodeGen al rest)).length
        = (b32encodeGen al rest).length - (rstripEq (b32encodeGen al rest)).length := by
      simp only [List.length_append, b32group, List.length_cons, List.length_nil]
      omega
    rw [hpc]
    have hlen8 : (b32group al b1 b2 b3 b4 b5).length = 8 := by simp [b32group]
    have hq : b32quanta rev 0 (b32group al b1 b2 b3 b4 b5)
        = some ((((((((0 * 32 + b1 / 8) * 32 + (b1 % 8 * 4 + b2 / 64)) * 32
            + b2 / 2 % 32) * 32 + (b2 % 2 * 16 + b3 / 16)) * 32
            + (b3 % 16 * 2 + b4 / 128)) * 32 + b4 / 4 % 32) * 32
            + (b4 % 4 * 8 + b5 / 32)) * 32 + b5 % 32) := by
      rw [b32group]
      rw [b32quanta_cons _ _ _ _ _ (hrev _ (by omega)),
          b32quanta_cons _ _ _ _ _ (hrev _ (by omega)),
          b32quanta_cons _ _ _ _ _ (hrev _ (by omega)),
          b32quanta_cons _ _ _ _ _ (hrev _ (by omega)),
          b32quanta_cons _ _ _ _ _ (hrev _ (by omega)),
          b32quanta_cons _ _ _ _ _ (hrev _ (by omega)),
          b32quanta_cons _ _ _ _ _ (hrev _ (by omega)),
          b32quanta_cons _ _ _ _ _ (hrev _ (by omega)), b32quanta_nil]
    have hnil : rstripEq (b32encodeGen al rest) = []
        → (b32encodeGen al rest).length - (rstripEq (b32encodeGen al rest)).length = 0 := by
      intro hsnil
      cases rest with
      | nil =>
        rw [show b32encodeGen al [] = [] from by rw [b32encodeGen]]
        rfl
      | cons r rs =>
        exact absurd hsnil (b32encodeGen_strip_ne_nil al hne _ hBrest (by simp))
    rw [b32decodeTail_group rev _ _ hlen8 hq _ _ hnil]
    rw [ih hBrest]
    simp [accBytes5]
    omega

/-- Round trip for the generic base32 codec. -/
theorem b32_round_trip_gen (al : Nat → Nat) (rev : Nat → Option Nat)
    (hrev : ∀ v < 32, rev (al v) = some v) (hne : ∀ v < 32, al v ≠ 61)
    (l : List Nat) (h : Bytes l) :
    b32decodeGen rev (b32encodeGen al l) = some l := by
  rw [b32decodeGen, if_neg (not_not_intro (b32encodeGen_length_mod al l))]
  exact b32_round_trip_tail al rev hrev hne l h

/-- `b32decode` inverts `b32encode` on every byte string. -/
theorem b32decode_b32encode (l : List Nat) (h : Bytes l) :
    b32decode (b32encode l) = some l :=
  b32_round_trip_gen b32char b32revChar b32revChar_b32char b32char_ne_61 l h

/-- `b32hexdecode` inverts `b32hexencode` on every byte string. -/
theorem b32hexdecode_b32hexencode (l : List Nat) (h : Bytes l) :
    b32hexdecode (b32hexencode l) = some l :=
  b32_round_trip_gen b32hexchar b32hexrevChar b32hexrevChar_b32hexchar b32hexchar_ne_61 l h

/-! ### base64.b85encode / b85decode

`_85encode` (with `foldnuls=False`) pads the input to a multiple of four
bytes with zeros, writes each 32-bit word as five base-85 digits and
truncates the final chunk by the padding; `b85decode` pads the input with
`~` (the digit 84) to a multiple of five characters, folds each chunk into
a 32-bit word (failing on a non-alphabet character or overflow) and
truncates the result by the padding. -/

/-- The base85 alphabet `0-9 A-Z a-z` followed by 23 punctuation characters. -/
def b85alphabet : List Nat :=
  [48, 49, 50, 51, 52, 53, 54, 55, 56, 57,
   65, 66, 67, 68, 69, 70, 71, 72, 73, 74, 75, 76, 77, 78, 79, 80,
   81, 82, 83, 84, 85, 86, 87, 88, 89, 90,
   97, 98, 99, 100, 101, 102, 103, 104, 105, 106, 107, 108, 109, 110, 111, 112,
   113, 114, 115, 116, 117, 118, 119, 120, 121, 122,
   33, 35, 36, 37, 38, 40, 41, 42, 43, 45, 59, 60, 61, 62, 63, 64,
   94, 95, 96, 123, 124, 125, 126]

/-- Character of a base-85 digit. -/
def b85char (v : Nat) : Nat := b85alphabet.getD v 0

/-- Digit of a base85 character (`_b85dec`). -/
def b85val (c : Nat) : Option Nat := b85alphabet.findIdx? (fun a => a == c)

/-- The five base-85 digits of a 32-bit word, most significant first. -/
def b85word (ch : Nat → Nat) (w : Nat) : List Nat :=
  [ch (w / 52200625), ch (w / 614125 % 85), ch (w / 7225 % 85), ch (w / 85 % 85),
   ch (w % 85)]

/-- `base64.b85encode` with `pad=False`. -/
def b85encode : List Nat → List Nat
  | [] => []
  | [x1] => (b85word b85char (x1 * 16777216)).take 2
  | [x1, x2] => (b85word b85char (x1 * 16777216 + x2 * 65536)).take 3
  | [x1, x2, x3] => (b85word b85char (x1 * 16777216 + x2 * 65536 + x3 * 256)).take 4
  | x1 :: x2 :: x3 :: x4 :: rest =>
    b85word b85char (x1 * 16777216 + x2 * 65536 + x3 * 256 + x4) ++ b85encode rest

/-- Fold one chunk of base-85 digits into the accumulator. -/
def b85chunkVal : List Nat → Nat → Option Nat
  | [], acc => some acc
  | c :: rest, acc =>
    (match b85val c with
     | none => none
     | some v => b85chunkVal rest (acc * 85 + v))

/-- `struct.pack('!I')`: four bytes, big endian (the caller checks the
word fits 32 bits). -/
def word4 (acc : Nat) : List Nat :=
  [acc / 16777216 % 256, acc / 65536 % 256, acc / 256 % 256, acc % 256]

/-- Decode successive 5-character chunks; a word over 32 bits is a
`struct.error`, reported as a `ValueError`. -/
def b85chunks : List Nat → Option (List Nat)
  | [] => some []
  | c :: rest =>
    (match b85chunkVal ((c :: rest).take 5) 0 with
     | none => none
     | some acc =>
       if acc < 4294967296 then
         (match b85chunks ((c :: rest).drop 5) with
          | none => none
          | some tl => some (word4 acc ++ tl))
       else none)
termination_by l => l.length
decreasing_by simp [List.length_drop]; omega

/-- `base64.b85decode`. -/
def b85decode (l : List Nat) : Option (List Nat) :=
  (b85chunks (l ++ List.replicate ((5 - l.length % 5) % 5) 126)).map
    (fun r => dropLastN ((5 - l.length % 5) % 5) r)

theorem b85val_b85char : ∀ v < 85, b85val (b85char v) = some v := by decide

theorem b85val_tilde : b85val 126 = some 84 := by decide

theorem b85chunkVal_nil (acc : Nat) : b85chunkVal [] acc = some acc := rfl

theorem b85chunkVal_cons (c v : Nat) (rest : List Nat) (acc : Nat)
    (hv : b85val c = some v) :
    b85chunkVal (c :: rest) acc = b85chunkVal rest (acc * 85 + v) := by
  rw [b85chunkVal, hv]

theorem b85chunks_nil : b85chunks [] = some [] := by rw [b85chunks]

theorem b85chunks_cons_eq (c : Nat) (rest : List Nat) :
    b85chunks (c :: rest) =
      (match b85chunkVal ((c :: rest).take 5) 0 with
       | none => none
       | some acc =>
         if acc < 4294967296 then
           (match b85chunks ((c :: rest).drop 5) with
            | none => none
            | some tl => some (word4 acc ++ tl))
         else none) := by
  rw [b85chunks]

/-- Peeling one full 5-character chunk off the front of the input. -/
theorem b85chunks_word (g : List Nat) (hlen : g.length = 5) (acc : Nat)
    (hval : b85chunkVal g 0 = some acc) (hlt : acc < 4294967296) (s : List Nat) :
    b85chunks (g ++ s) = (b85chunks s).map (fun t => word4 acc ++ t) := by
  have hgcons : ∃ c rest, g = c :: rest := by
    cases g with
    | nil => simp at hlen
    | cons c rest => exact ⟨c, rest, rfl⟩
  obtain ⟨c, grest, rfl⟩ := hgcons
  rw [show (c :: grest) ++ s = c :: (grest ++ s) from rfl]
  rw [b85chunks_cons_eq]
  have htake : (c :: (grest ++ s)).take 5 = c :: grest := by
    rw [show c :: (grest ++ s) = (c :: grest) ++ s from rfl, ← hlen]
    exact List.take_left (c :: grest) s
  have hdrop : (c :: (grest ++ s)).drop 5 = s := by
    rw [show c :: (grest ++ s) = (c :: grest) ++ s from rfl, ← hlen]
    exact List.drop_left (c :: grest) s
  rw [htake, hdrop, hval]
  cases hs : b85chunks s with
  | none => simp [hs, hlt]
  | some r => simp [hs, hlt]

theorem b85encode_length_mod (l : List Nat) :
    (b85encode l).length % 5 = 0 ∨ (b85encode l).length % 5 = 2
      ∨ (b85encode l).length % 5 = 3 ∨ (b85encode l).length % 5 = 4 := by
  induction l using b85encode.induct with
  | case1 => simp [b85encode]
  | case2 x1 => simp [b85encode, b85word]
  | case3 x1 x2 => simp [b85encode, b85word]
  | case4 x1 x2 x3 => simp [b85encode, b85word]
  | case5 x1 x2 x3 x4 rest ih =>
    rw [b85encode]
    simp only [List.length_append, b85word, List.length_cons, List.length_nil]
    omega

/-- `b85decode` inverts `b85encode` on every byte string. -/
theorem b85decode_b85encode (l : List Nat) :
    Bytes l → b85decode (b85encode l) = some l := by
  induction l using b85encode.induct with
  | case1 =>
    intro _
    rw [show b85encode [] = [] from by rw [b85encode]]
    rw [b85decode]
    simp [b85chunks_nil, dropLastN]
  | case2 x1 =>
    intro h
    have hb1 : x1 < 256 := h x1 (by simp)
    have hn1 := Nat.div_div_eq_div_mul (x1 * 16777216) 614125 85
    have hn2 := Nat.div_div_eq_div_mul (x1 * 16777216) 7225 85
    have hn3 := Nat.div_div_eq_div_mul (x1 * 16777216) 85 85
    have hE : b85encode [x1] = [b85char (x1 * 16777216 / 52200625),
        b85char (x1 * 16777216 / 614125 % 85)] := by
      simp [b85encode, b85word]
    have hpad : (5 - (b85encode [x1]).length % 5) % 5 = 3 := by rw [hE]; rfl
    have hfull : b85encode [x1]
        ++ List.replicate ((5 - (b85encode [x1]).length % 5) % 5) 126
        = [b85char (x1 * 16777216 / 52200625),
           b85char (x1 * 16777216 / 614125 % 85), 126, 126, 126] := by
      rw [hpad, hE]
      rfl
    rw [b85decode, hfull, hpad]
    have hq : b85chunkVal [b85char (x1 * 16777216 / 52200625),
        b85char (x1 * 16777216 / 614125 % 85), 126, 126, 126] 0
        = some (x1 * 16777216 + (614124 - (x1 * 16777216) % 614125)) := by
      rw [b85chunkVal_cons _ _ _ _ (b85val_b85char _ (by omega)),
          b85chunkVal_cons _ _ _ _ (b85val_b85char _ (by omega)),
          b85chunkVal_cons _ _ _ _ b85val_tilde,
          b85chunkVal_cons _ _ _ _ b85val_tilde,
          b85chunkVal_cons _ _ _ _ b85val_tilde, b85chunkVal_nil]
      congr 1
      omega
    rw [b85chunks_cons_eq, List.take_of_length_le (by simp)]
    simp only [hq, List.drop_succ_cons, List.drop_nil, b85chunks_nil]
    rw [if_pos (by omega)]
    simp [word4, dropLastN]
    obtain ⟨t, hgen, htb⟩ : ∃ t, 614124 - (x1 * 16777216) % 614125 = t ∧ t < 16777216 :=
      ⟨_, rfl, by omega⟩
    rw [hgen]
    clear hgen hn1 hn2 hn3 hq hE hpad hfull h
    omega
  | case3 x1 x2 =>
    intro h
    have hb1 : x1 < 256 := h x1 (by simp)
    have hb2 : x2 < 256 := h x2 (by simp)
    have hn1 := Nat.div_div_eq_div_mul (x1 * 16777216 + x2 * 65536) 614125 85
    have hn2 := Nat.div_div_eq_div_mul (x1 * 16777216 + x2 * 65536) 7225 85
    have hn3 := Nat.div_div_eq_div_mul (x1 * 16777216 + x2 * 65536) 85 85
    have hE : b85encode [x1, x2] = [b85char ((x1 * 16777216 + x2 * 65536) / 52200625),
        b85char ((x1 * 16777216 + x2 * 65536) / 614125 % 85),
        b85char ((x1 * 16777216 + x2 * 65536) / 7225 % 85)] := by
      simp [b85encode, b85word]
    have hpad : (5 - (b85encode [x1, x2]).length % 5) % 5 = 2 := by rw [hE]; rfl
    have hfull : b85encode [x1, x2]
        ++ List.replicate ((5 - (b85encode [x1, x2]).length % 5) % 5) 126
        = [b85char ((x1 * 16777216 + x2 * 65536) / 52200625),
           b85char ((x1 * 16777216 + x2 * 65536) / 614125 % 85),
           b85char ((x1 * 16777216 + x2 * 65536) / 7225 % 85), 126, 126] := by
      rw [hpad, hE]
      rfl
    rw [b85decode, hfull, hpad]
    have hq : b85chunkVal [b85char ((x1 * 16777216 + x2 * 65536) / 52200625),
        b85char ((x1 * 16777216 + x2 * 65536) / 614125 % 85),
        b85char ((x1 * 16777216 + x2 * 65536) / 7225 % 85), 126, 126] 0
        = some (x1 * 16777216 + x2 * 65536 + (7224 - (x1 * 16777216 + x2 * 65536) % 7225)) := by
      rw [b85chunkVal_cons _ _ _ _ (b85val_b85char _ (by omega)),
          b85chunkVal_cons _ _ _ _ (b85val_b85char _ (by omega)),
          b85chunkVal_cons _ _ _ _ (b85val_b85char _ (by omega)),
          b85chunkVal_cons _ _ _ _ b85val_tilde,
          b85chunkVal_cons _ _ _ _ b85val_tilde, b85chunkVal_nil]
      congr 1
      omega
    rw [b85chunks_cons_eq, List.take_of_length_le (by simp)]
    simp only [hq, List.drop_succ_cons, List.drop_nil, b85chunks_nil]
    rw [if_pos (by omega)]
    simp [word4, dropLastN]
    obtain ⟨t, hgen, htb⟩ : ∃ t, 7224 - (x1 * 16777216 + x2 * 65536) % 7225 = t ∧ t < 65536 :=
      ⟨_, rfl, by omega⟩
    rw [hgen]
    clear hgen hn1 hn2 hn3 hq hE hpad hfull h
    omega
  | case4 x1 x2 x3 =>
    intro h
    have hb1 : x1 < 256 := h x1 (by simp)
    have hb2 : x2 < 256 := h x2 (by simp)
    have hb3 : x3 < 256 := h x3 (by simp)
    have hn1 := Nat.div_div_eq_div_mul (x1 * 16777216 + x2 * 65536 + x3 * 256) 614125 85
    have hn2 := Nat.div_div_eq_div_mul (x1 * 16777216 + x2 * 65536 + x3 * 256) 7225 85
    have hn3 := Nat.div_div_eq_div_mul (x1 * 16777216 + x2 * 65536 + x3 * 256) 85 85
    have hE : b85encode [x1, x2, x3]
        = [b85char ((x1 * 16777216 + x2 * 65536 + x3 * 256) / 52200625),
           b85char ((x1 * 16777216 + x2 * 65536 + x3 * 256) / 614125 % 85),
           b85char ((x1 * 16777216 + x2 * 65536 + x3 * 256) / 7225 % 85),
           b85char ((x1 * 16777216 + x2 * 65536 + x3 * 256) / 85 % 85)] := by
      simp [b85encode, b85word]
    have hpad : (5 - (b85encode [x1, x2, x3]).length % 5) % 5 = 1 := by rw [hE]; rfl
    have hfull : b85encode [x1, x2, x3]
        ++ List.replicate ((5 - (b85encode [x1, x2, x3]).length % 5) % 5) 126
        = [b85char ((x1 * 16777216 + x2 * 65536 + x3 * 256) / 52200625),
           b85char ((x1 * 16777216 + x2 * 65536 + x3 * 256) / 614125 % 85),
           b85char ((x1 * 16777216 + x2 * 65536 + x3 * 256) / 7225 % 85),
           b85char ((x1 * 16777216 + x2 * 65536 + x3 * 256) / 85 % 85), 126] := by
      rw [hpad, hE]
      rfl
    rw [b85decode, hfull, hpad]
    have hq : b85chunkVal [b85char ((x1 * 16777216 + x2 * 65536 + x3 * 256) / 52200625),
        b85char ((x1 * 16777216 + x2 * 65536 + x3 * 256) / 614125 % 85),
        b85char ((x1 * 16777216 + x2 * 65536 + x3 * 256) / 7225 % 85),
        b85char ((x1 * 16777216 + x2 * 65536 + x3 * 256) / 85 % 85), 126] 0
        = some (x1 * 16777216 + x2 * 65536 + x3 * 256 + (84 - (x1 * 16777216 + x2 * 65536 + x3 * 256) % 85)) := by
      rw [b85chunkVal_cons _ _ _ _ (b85val_b85char _ (by omega)),
          b85chunkVal_cons _ _ _ _ (b85val_b85char _ (by omega)),
          b85chunkVal_cons _ _ _ _ (b85val_b85char _ (by omega)),
          b85chunkVal_cons _ _ _ _ (b85val_b85char _ (by omega)),
          b85chunkVal_cons _ _ _ _ b85val_tilde, b85chunkVal_nil]
      congr 1
      omega
    rw [b85chunks_cons_eq, List.take_of_length_le (by simp)]
    simp only [hq, List.drop_succ_cons, List.drop_nil, b85chunks_nil]
    rw [if_pos (by omega)]
    simp [word4, dropLastN]
    obtain ⟨t, hgen, htb⟩ : ∃ t, 84 - (x1 * 16777216 + x2 * 65536 + x3 * 256) % 85 = t ∧ t < 256 :=
      ⟨_, rfl, by omega⟩
    rw [hgen]
    clear hgen hn1 hn2 hn3 hq hE hpad hfull h
    omega
  | case5 x1 x2 x3 x4 rest ih =>
    intro h
    have hb1 : x1 < 256 := h x1 (by simp)
    have hb2 : x2 < 256 := h x2 (by simp)
    have hb3 : x3 < 256 := h x3 (by simp)
    have hb4 : x4 < 256 := h x4 (by simp)
    have hBrest : Bytes rest := fun x hx => h x (by simp [hx])
    have hn1 := Nat.div_div_eq_div_mul (x1 * 16777216 + x2 * 65536 + x3 * 256 + x4) 614125 85
    have hn2 := Nat.div_div_eq_div_mul (x1 * 16777216 + x2 * 65536 + x3 * 256 + x4) 7225 85
    have hn3 := Nat.div_div_eq_div_mul (x1 * 16777216 + x2 * 65536 + x3 * 256 + x4) 85 85
    have hq : b85chunkVal (b85word b85char (x1 * 16777216 + x2 * 65536 + x3 * 256 + x4)) 0 = some (x1 * 16777216 + x2 * 65536 + x3 * 256 + x4) := by
      rw [b85word]
      rw [b85chunkVal_cons _ _ _ _ (b85val_b85char _ (by omega)),
          b85chunkVal_cons _ _ _ _ (b85val_b85char _ (by omega)),
          b85chunkVal_cons _ _ _ _ (b85val_b85char _ (by omega)),
          b85chunkVal_cons _ _ _ _ (b85val_b85char _ (by omega)),
          b85chunkVal_cons _ _ _ _ (b85val_b85char _ (by omega)), b85chunkVal_nil]
      congr 1
      omega
    have hlen5 : (b85word b85char (x1 * 16777216 + x2 * 65536 + x3 * 256 + x4)).length = 5 := by simp [b85word]
    have hpadeq : (5 - (b85encode (x1 :: x2 :: x3 :: x4 :: rest)).length % 5) % 5
        = (5 - (b85encode rest).length % 5) % 5 := by
      rw [b85encode]
      simp only [List.length_append, b85word, List.length_cons, List.length_nil]
      omega
    rw [b85decode, hpadeq, b85encode, List.append_assoc]
    rw [b85chunks_word _ hlen5 _ hq (by omega)]
    have ihr := ih hBrest
    rw [b85decode] at ihr
    cases hr : b85chunks (b85encode rest
        ++ List.replicate ((5 - (b85encode rest).length % 5) % 5) 126) with
    | none =>
      rw [hr] at ihr
      simp at ihr
    | some r =>
      rw [hr] at ihr
      simp only [Option.map_some', Option.some.injEq] at ihr
      have hpadle : (5 - (b85encode rest).length % 5) % 5 ≤ r.length := by
        cases hre : rest with
        | nil =>
          rw [show b85encode [] = [] from by rw [b85encode]]
          simp
        | cons a as =>
          subst hre
          by_contra hgt
          push_neg at hgt
          have hz : r.length - (5 - (b85encode (a :: as)).length % 5) % 5 = 0 := by omega
          rw [dropLastN, hz] at ihr
          simp at ihr
      simp only [Option.map_some', Option.some.injEq]
      rw [dropLastN_append _ _ _ hpadle, ihr]
      clear hn1 hn2 hn3 hq hlen5 hpadeq ihr hr hpadle h hBrest
      simp [word4]
      omega

/-! ### base64.a85encode / a85decode

`a85encode` (default arguments) is `_85encode` with `foldnuls=True`: a
zero word becomes the single character `z`, other words become five digits
`!`..`u`; a final partial chunk is truncated (after expanding a lone `z`
back to `!!!!!`).  `a85decode` (default arguments) streams over the input
followed by four `u` characters: digits fill a five-character buffer that
flushes into a 32-bit word, `z` (with an empty buffer) emits four zero
bytes, ASCII whitespace is skipped, anything else is an error; finally
`4 - len(buffer)` bytes are dropped from the result. -/

/-- The chunk of one full word: `z` for zero, else five Ascii85 digits. -/
def a85chunkFull (w : Nat) : List Nat :=
  if w = 0 then [122] else b85word (fun d => 33 + d) w

/-- The final partial chunk before truncation: a lone `z` is expanded back
to five `!` characters. -/
def a85remTail (w : Nat) : List Nat :=
  if a85chunkFull w = [122] then List.replicate 5 33 else a85chunkFull w

/-- `base64.a85encode` with default arguments. -/
def a85encode : List Nat → List Nat
  | [] => []
  | [x1] => (a85remTail (x1 * 16777216)).take 2
  | [x1, x2] => (a85remTail (x1 * 16777216 + x2 * 65536)).take 3
  | [x1, x2, x3] => (a85remTail (x1 * 16777216 + x2 * 65536 + x3 * 256)).take 4
  | x1 :: x2 :: x3 :: x4 :: rest =>
    a85chunkFull (x1 * 16777216 + x2 * 65536 + x3 * 256 + x4) ++ a85encode rest

/-- Fold a buffer of Ascii85 digit characters into an accumulator
(`acc = 85 * acc + (x - 33)`). -/
def a85acc (curr : List Nat) : Nat := curr.foldl (fun acc x => acc * 85 + (x - 33)) 0

/-- The decode loop of `a85decode` over the input with a buffer; returns
the decoded bytes and the final buffer length. -/
def a85loop : List Nat → List Nat → Option (List Nat × Nat)
  | [], curr => some ([], curr.length)
  | x :: rest, curr =>
    if 33 ≤ x ∧ x ≤ 117 then
      (if (curr ++ [x]).length = 5 then
         (if a85acc (curr ++ [x]) < 4294967296 then
            (match a85loop rest [] with
             | none => none
             | some (tl, m) => some (word4 (a85acc (curr ++ [x])) ++ tl, m))
          else none)
       else a85loop rest (curr ++ [x]))
    else if x = 122 then
      (if curr = [] then
         (match a85loop rest [] with
          | none => none
          | some (tl, m) => some (0 :: 0 :: 0 :: 0 :: tl, m))
       else none)
    else if x = 32 ∨ x = 9 ∨ x = 10 ∨ x = 13 ∨ x = 11 then
      a85loop rest curr
    else none

/-- `base64.a85decode` with default arguments. -/
def a85decode (l : List Nat) : Option (List Nat) :=
  match a85loop (l ++ List.replicate 4 117) [] with
  | none => none
  | some (r, mlen) => some (dropLastN (4 - mlen) r)

theorem a85loop_digit_step (x : Nat) (rest curr : List Nat)
    (hx : 33 ≤ x ∧ x ≤ 117) (hlen : (curr ++ [x]).length ≠ 5) :
    a85loop (x :: rest) curr = a85loop rest (curr ++ [x]) := by
  rw [a85loop, if_pos hx, if_neg hlen]

theorem a85loop_flush (x : Nat) (rest curr : List Nat) (hx : 33 ≤ x ∧ x ≤ 117)
    (hlen : (curr ++ [x]).length = 5) (hacc : a85acc (curr ++ [x]) < 4294967296) :
    a85loop (x :: rest) curr
      = (match a85loop rest [] with
         | none => none
         | some (tl, m) => some (word4 (a85acc (curr ++ [x])) ++ tl, m)) := by
  rw [a85loop, if_pos hx, if_pos hlen, if_pos hacc]

theorem a85loop_z (rest : List Nat) :
    a85loop (122 :: rest) []
      = (match a85loop rest [] with
         | none => none
         | some (tl, m) => some (0 :: 0 :: 0 :: 0 :: tl, m)) := by
  rw [a85loop, if_neg (by omega), if_pos rfl, if_pos rfl]

/-- Processing one full five-digit chunk of a word below `2 ^ 32`. -/
theorem a85loop_word (w : Nat) (hw : w < 4294967296) (s : List Nat) :
    a85loop (b85word (fun d => 33 + d) w ++ s) []
      = (match a85loop s [] with
         | none => none
         | some (tl, m) => some (word4 w ++ tl, m)) := by
  have hn1 := Nat.div_div_eq_div_mul w 614125 85
  have hn2 := Nat.div_div_eq_div_mul w 7225 85
  have hn3 := Nat.div_div_eq_div_mul w 85 85
  rw [b85word]
  simp only [List.cons_append, List.nil_append]
  rw [a85loop_digit_step _ _ _ ⟨by omega, by omega⟩ (by simp)]
  rw [a85loop_digit_step _ _ _ ⟨by omega, by omega⟩ (by simp)]
  rw [a85loop_digit_step _ _ _ ⟨by omega, by omega⟩ (by simp)]
  rw [a85loop_digit_step _ _ _ ⟨by omega, by omega⟩ (by simp)]
  have hacc : a85acc ([] ++ [33 + w / 52200625] ++ [33 + w / 614125 % 85]
      ++ [33 + w / 7225 % 85] ++ [33 + w / 85 % 85] ++ [33 + w % 85]) = w := by
    simp only [List.nil_append, List.cons_append, a85acc, List.foldl]
    omega
  rw [a85loop_flush _ _ _ ⟨by omega, by omega⟩ (by simp) (by rw [hacc]; exact hw)]
  rw [hacc]

theorem a85remTail_eq (w : Nat) : a85remTail w = b85word (fun d => 33 + d) w := by
  rw [a85remTail, a85chunkFull]
  by_cases hw : w = 0
  · subst hw
    rw [if_pos rfl, if_pos rfl]
    rfl
  · rw [if_neg hw, if_neg (by simp [b85word])]

theorem a85loop_one_u : a85loop [117] [] = some ([], 1) := by
  rw [a85loop_digit_step _ _ _ ⟨by omega, by omega⟩ (by simp)]
  rfl

theorem a85loop_two_u : a85loop [117, 117] [] = some ([], 2) := by
  rw [a85loop_digit_step _ _ _ ⟨by omega, by omega⟩ (by simp),
      a85loop_digit_step _ _ _ ⟨by omega, by omega⟩ (by simp)]
  rfl

theorem a85loop_three_u : a85loop [117, 117, 117] [] = some ([], 3) := by
  rw [a85loop_digit_step _ _ _ ⟨by omega, by omega⟩ (by simp),
      a85loop_digit_step _ _ _ ⟨by omega, by omega⟩ (by simp),
      a85loop_digit_step _ _ _ ⟨by omega, by omega⟩ (by simp)]
  rfl

theorem a85loop_four_u : a85loop [117, 117, 117, 117] [] = some ([], 4) := by
  rw [a85loop_digit_step _ _ _ ⟨by omega, by omega⟩ (by simp),
      a85loop_digit_step _ _ _ ⟨by omega, by omega⟩ (by simp),
      a85loop_digit_step _ _ _ ⟨by omega, by omega⟩ (by simp),
      a85loop_digit_step _ _ _ ⟨by omega, by omega⟩ (by simp)]
  rfl

/-- `a85decode` inverts `a85encode` on every byte string. -/
theorem a85decode_a85encode (l : List Nat) :
    Bytes l → a85decode (a85encode l) = some l := by
  induction l using a85encode.induct with
  | case1 =>
    intro _
    rw [show a85encode [] = [] from by rw [a85encode]]
    rw [a85decode]
    rw [show ([] : List Nat) ++ List.replicate 4 117 = [117, 117, 117, 117] from rfl]
    rw [a85loop_four_u]
    rfl
  | case2 x1 =>
    intro h
    have hb1 : x1 < 256 := h x1 (by simp)
    have hn1 := Nat.div_div_eq_div_mul (x1 * 16777216) 614125 85
    have hn2 := Nat.div_div_eq_div_mul (x1 * 16777216) 7225 85
    have hn3 := Nat.div_div_eq_div_mul (x1 * 16777216) 85 85
    have hE : a85encode [x1] = [33 + (x1 * 16777216) / 52200625, 33 + (x1 * 16777216) / 614125 % 85] := by
      rw [a85encode, a85remTail_eq]
      simp [b85word]
    have hfull : a85encode [x1] ++ List.replicate 4 117
        = (33 + (x1 * 16777216) / 52200625) :: (33 + (x1 * 16777216) / 614125 % 85)
          :: 117 :: 117 :: 117 :: [117] := by
      rw [hE]
      rfl
    rw [a85decode, hfull]
    rw [a85loop_digit_step _ _ _ ⟨by omega, by omega⟩ (by simp)]
    rw [a85loop_digit_step _ _ _ ⟨by omega, by omega⟩ (by simp)]
    rw [a85loop_digit_step _ _ _ ⟨by omega, by omega⟩ (by simp)]
    rw [a85loop_digit_step _ _ _ ⟨by omega, by omega⟩ (by simp)]
    have hacc : a85acc ([] ++ [33 + (x1 * 16777216) / 52200625] ++ [33 + (x1 * 16777216) / 614125 % 85]
        ++ [117] ++ [117] ++ [117]) = x1 * 16777216 + (614124 - (x1 * 16777216) % 614125) := by
      simp only [List.nil_append, List.cons_append, a85acc, List.foldl]
      omega
    rw [a85loop_flush _ _ _ ⟨by omega, by omega⟩ (by simp)
        (by rw [hacc]; omega)]
    rw [hacc, a85loop_one_u]
    simp [word4, dropLastN]
    obtain ⟨t, hgen, htb⟩ : ∃ t, 614124 - (x1 * 16777216) % 614125 = t ∧ t < 16777216 :=
      ⟨_, rfl, by omega⟩
    rw [hgen]
    clear hgen hn1 hn2 hn3 hE hfull hacc h
    omega
  | case3 x1 x2 =>
    intro h
    have hb1 : x1 < 256 := h x1 (by simp)
    have hb2 : x2 < 256 := h x2 (by simp)
    have hn1 := Nat.div_div_eq_div_mul (x1 * 16777216 + x2 * 65536) 614125 85
    have hn2 := Nat.div_div_eq_div_mul (x1 * 16777216 + x2 * 65536) 7225 85
    have hn3 := Nat.div_div_eq_div_mul (x1 * 16777216 + x2 * 65536) 85 85
    have hE : a85encode [x1, x2] = [33 + (x1 * 16777216 + x2 * 65536) / 52200625, 33 + (x1 * 16777216 + x2 * 65536) / 614125 % 85,
        33 + (x1 * 16777216 + x2 * 65536) / 7225 % 85] := by
      rw [a85encode, a85remTail_eq]
      simp [b85word]
    have hfull : a85encode [x1, x2] ++ List.replicate 4 117
        = (33 + (x1 * 16777216 + x2 * 65536) / 52200625) :: (33 + (x1 * 16777216 + x2 * 65536) / 614125 % 85)
          :: (33 + (x1 * 16777216 + x2 * 65536) / 7225 % 85) :: 117 :: 117 :: 117 :: [117] := by
      rw [hE]
      rfl
    rw [a85decode, hfull]
    rw [a85loop_digit_step _ _ _ ⟨by omega, by omega⟩ (by simp)]
    rw [a85loop_digit_step _ _ _ ⟨by omega, by omega⟩ (by simp)]
    rw [a85loop_digit_step _ _ _ ⟨by omega, by omega⟩ (by simp)]
    rw [a85loop_digit_step _ _ _ ⟨by omega, by omega⟩ (by simp)]
    have hacc : a85acc ([] ++ [33 + (x1 * 16777216 + x2 * 65536) / 52200625] ++ [33 + (x1 * 16777216 + x2 * 65536) / 614125 % 85]
        ++ [33 + (x1 * 16777216 + x2 * 65536) / 7225 % 85] ++ [117] ++ [117]) = x1 * 16777216 + x2 * 65536 + (7224 - (x1 * 16777216 + x2 * 65536) % 7225) := by
      simp only [List.nil_append, List.cons_append, a85acc, List.foldl]
      omega
    rw [a85loop_flush _ _ _ ⟨by omega, by omega⟩ (by simp)
        (by rw [hacc]; omega)]
    rw [hacc, a85loop_two_u]
    simp [word4, dropLastN]
    obtain ⟨t, hgen, htb⟩ : ∃ t, 7224 - (x1 * 16777216 + x2 * 65536) % 7225 = t ∧ t < 65536 :=
      ⟨_, rfl, by omega⟩
    rw [hgen]
    clear hgen hn1 hn2 hn3 hE hfull hacc h
    omega
  | case4 x1 x2 x3 =>
    intro h
    have hb1 : x1 < 256 := h x1 (by simp)
    have hb2 : x2 < 256 := h x2 (by simp)
    have hb3 : x3 < 256 := h x3 (by simp)
    have hn1 := Nat.div_div_eq_div_mul (x1 * 16777216 + x2 * 65536 + x3 * 256) 614125 85
    have hn2 := Nat.div_div_eq_div_mul (x1 * 16777216 + x2 * 65536 + x3 * 256) 7225 85
    have hn3 := Nat.div_div_eq_div_mul (x1 * 16777216 + x2 * 65536 + x3 * 256) 85 85
    have hE : a85encode [x1, x2, x3] = [33 + (x1 * 16777216 + x2 * 65536 + x3 * 256) / 52200625, 33 + (x1 * 16777216 + x2 * 65536 + x3 * 256) / 614125 % 85,
        33 + (x1 * 16777216 + x2 * 65536 + x3 * 256) / 7225 % 85, 33 + (x1 * 16777216 + x2 * 65536 + x3 * 256) / 85 % 85] := by
      rw [a85encode, a85remTail_eq]
      simp [b85word]
    have hfull : a85encode [x1, x2, x3] ++ List.replicate 4 117
        = (33 + (x1 * 16777216 + x2 * 65536 + x3 * 256) / 52200625) :: (33 + (x1 * 16777216 + x2 * 65536 + x3 * 256) / 614125 % 85)
          :: (33 + (x1 * 16777216 + x2 * 65536 + x3 * 256) / 7225 % 85) :: (33 + (x1 * 16777216 + x2 * 65536 + x3 * 256) / 85 % 85)
          :: 117 :: 117 :: 117 :: [117] := by
      rw [hE]
      rfl
    rw [a85decode, hfull]
    rw [a85loop_digit_step _ _ _ ⟨by omega, by omega⟩ (by simp)]
    rw [a85loop_digit_step _ _ _ ⟨by omega, by omega⟩ (by simp)]
    rw [a85loop_digit_step _ _ _ ⟨by omega, by omega⟩ (by simp)]
    rw [a85loop_digit_step _ _ _ ⟨by omega, by omega⟩ (by simp)]
    have hacc : a85acc ([] ++ [33 + (x1 * 16777216 + x2 * 65536 + x3 * 256) / 52200625] ++ [33 + (x1 * 16777216 + x2 * 65536 + x3 * 256) / 614125 % 85]
        ++ [33 + (x1 * 16777216 + x2 * 65536 + x3 * 256) / 7225 % 85] ++ [33 + (x1 * 16777216 + x2 * 65536 + x3 * 256) / 85 % 85] ++ [117])
        = x1 * 16777216 + x2 * 65536 + x3 * 256 + (84 - (x1 * 16777216 + x2 * 65536 + x3 * 256) % 85) := by
      simp only [List.nil_append, List.cons_append, a85acc, List.foldl]
      omega
    rw [a85loop_flush _ _ _ ⟨by omega, by omega⟩ (by simp)
        (by rw [hacc]; omega)]
    rw [hacc, a85loop_three_u]
    simp [word4, dropLastN]
    obtain ⟨t, hgen, htb⟩ : ∃ t, 84 - (x1 * 16777216 + x2 * 65536 + x3 * 256) % 85 = t ∧ t < 256 :=
      ⟨_, rfl, by omega⟩
    rw [hgen]
    clear hgen hn1 hn2 hn3 hE hfull hacc h
    omega
  | case5 x1 x2 x3 x4 rest ih =>
    intro h
    have hb1 : x1 < 256 := h x1 (by simp)
    have hb2 : x2 < 256 := h x2 (by simp)
    have hb3 : x3 < 256 := h x3 (by simp)
    have hb4 : x4 < 256 := h x4 (by simp)
    have hBrest : Bytes rest := fun x hx => h x (by simp [hx])
    have ihr := ih hBrest
    rw [a85decode] at ihr
    rw [a85decode, a85encode, List.append_assoc]
    by_cases hw0 : (x1 * 16777216 + x2 * 65536 + x3 * 256 + x4) = 0
    · rw [a85chunkFull, if_pos hw0]
      rw [show [122] ++ (a85encode rest ++ List.replicate 4 117)
            = 122 :: (a85encode rest ++ List.replicate 4 117) from rfl]
      rw [a85loop_z]
      cases hr : a85loop (a85encode rest ++ List.replicate 4 117) [] with
      | none =>
        rw [hr] at ihr
        simp at ihr
      | some rm =>
        obtain ⟨r, m⟩ := rm
        rw [hr] at ihr
        simp only [Option.some.injEq] at ihr
        have hpadle : 4 - m ≤ r.length := by
          cases hre : rest with
          | nil =>
            subst hre
            rw [show a85encode [] = [] from by rw [a85encode]] at hr
            rw [show ([] : List Nat) ++ List.replicate 4 117 = [117, 117, 117, 117]
                  from rfl] at hr
            rw [a85loop_four_u] at hr
            cases hr
            simp
          | cons a as =>
            subst hre
            by_contra hgt
            push_neg at hgt
            have hz : r.length - (4 - m) = 0 := by omega
            rw [dropLastN, hz] at ihr
            simp at ihr
        simp only [Option.some.injEq]
        rw [show ((0 : Nat) :: 0 :: 0 :: 0 :: r) = [0, 0, 0, 0] ++ r from rfl]
        rw [dropLastN_append _ _ _ hpadle, ihr]
        have hx1 : x1 = 0 := by omega
        have hx2 : x2 = 0 := by omega
        have hx3 : x3 = 0 := by omega
        have hx4 : x4 = 0 := by omega
        rw [hx1, hx2, hx3, hx4]
        rfl
    · rw [a85chunkFull, if_neg hw0]
      rw [a85loop_word _ (by omega)]
      cases hr : a85loop (a85encode rest ++ List.replicate 4 117) [] with
      | none =>
        rw [hr] at ihr
        simp at ihr
      | some rm =>
        obtain ⟨r, m⟩ := rm
        rw [hr] at ihr
        simp only [Option.some.injEq] at ihr
        have hpadle : 4 - m ≤ r.length := by
          cases hre : rest with
          | nil =>
            subst hre
            rw [show a85encode [] = [] from by rw [a85encode]] at hr
            rw [show ([] : List Nat) ++ List.replicate 4 117 = [117, 117, 117, 117]
                  from rfl] at hr
            rw [a85loop_four_u] at hr
            cases hr
            simp
          | cons a as =>
            subst hre
            by_contra hgt
            push_neg at hgt
            have hz : r.length - (4 - m) = 0 := by omega
            rw [dropLastN, hz] at ihr
            simp at ihr
        simp only [Option.some.injEq]
        rw [dropLastN_append _ _ _ hpadle, ihr]
        clear ihr hr hpadle h hBrest
        simp [word4]
        omega

/-! ### hashlib.md5

A full MD5 implementation (RFC 1321) over byte lists, with 32-bit words as
naturals reduced modulo `2 ^ 32`.  Only the `hexdigest` of the result is
observable through the shell. -/

/-- The 64 MD5 sine-derived constants. -/
def md5K : List Nat :=
  [   3614090360, 3905402710, 606105819, 3250441966, 4118548399, 1200080426,
   2821735955, 4249261313, 1770035416, 2336552879, 4294925233, 2304563134,
   1804603682, 4254626195, 2792965006, 1236535329, 4129170786, 3225465664,
   643717713, 3921069994, 3593408605, 38016083, 3634488961, 3889429448,
   568446438, 3275163606, 4107603335, 1163531501, 2850285829, 4243563512,
   1735328473, 2368359562, 4294588738, 2272392833, 1839030562, 4259657740,
   2763975236, 1272893353, 4139469664, 3200236656, 681279174, 3936430074,
   3572445317, 76029189, 3654602809, 3873151461, 530742520, 3299628645,
   4096336452, 1126891415, 2878612391, 4237533241, 1700485571, 2399980690,
   4293915773, 2240044497, 1873313359, 4264355552, 2734768916, 1309151649,
   4149444226, 3174756917, 718787259, 3951481745]

/-- The 64 MD5 per-round rotation amounts. -/
def md5S : List Nat :=
  [   7, 12, 17, 22, 7, 12, 17, 22, 7, 12, 17, 22, 7, 12, 17, 22,
   5, 9, 14, 20, 5, 9, 14, 20, 5, 9, 14, 20, 5, 9, 14, 20,
   4, 11, 16, 23, 4, 11, 16, 23, 4, 11, 16, 23, 4, 11, 16, 23,
   6, 10, 15, 21, 6, 10, 15, 21, 6, 10, 15, 21, 6, 10, 15, 21]

/-- Rotate a 32-bit word left by `s`. -/
def rotl32 (x s : Nat) : Nat := (x * 2 ^ s + x / 2 ^ (32 - s)) % 4294967296

/-- The MD5 round function (complement written as subtraction from the
32-bit mask, exact for words below `2 ^ 32`). -/
def md5F (i b c d : Nat) : Nat :=
  if i < 16 then (b &&& c) ||| ((4294967295 - b) &&& d)
  else if i < 32 then (d &&& b) ||| ((4294967295 - d) &&& c)
  else if i < 48 then b ^^^ c ^^^ d
  else c ^^^ (b ||| (4294967295 - d))

/-- The MD5 message-word index for round `i`. -/
def md5G (i : Nat) : Nat :=
  if i < 16 then i
  else if i < 32 then (5 * i + 1) % 16
  else if i < 48 then (3 * i + 5) % 16
  else (7 * i) % 16

/-- Little-endian 32-bit word `j` of a 64-byte block. -/
def le32 (block : List Nat) (j : Nat) : Nat :=
  block.getD (4 * j) 0 + block.getD (4 * j + 1) 0 * 256
    + block.getD (4 * j + 2) 0 * 65536 + block.getD (4 * j + 3) 0 * 16777216

/-- One MD5 round applied to the state. -/
def md5Round (block : List Nat) (st : Nat × Nat × Nat × Nat) (i : Nat) :
    Nat × Nat × Nat × Nat :=
  match st with
  | (a, b, c, d) =>
    let f := (md5F i b c d + a + md5K.getD i 0 + le32 block (md5G i)) % 4294967296
    (d, (b + rotl32 f (md5S.getD i 0)) % 4294967296, b, c)

/-- Process one 64-byte block. -/
def md5Block (st : Nat × Nat × Nat × Nat) (block : List Nat) :
    Nat × Nat × Nat × Nat :=
  match st, (List.range 64).foldl (md5Round block) st with
  | (a0, b0, c0, d0), (a, b, c, d) =>
    ((a0 + a) % 4294967296, (b0 + b) % 4294967296,
     (c0 + c) % 4294967296, (d0 + d) % 4294967296)

/-- Process the 64-byte blocks of the padded message, fuel-driven so that
it evaluates by kernel reduction (the fuel is the message length, always at
least the number of blocks). -/
def md5Blocks : Nat → (Nat × Nat × Nat × Nat) → List Nat → Nat × Nat × Nat × Nat
  | _, st, [] => st
  | 0, st, _ :: _ => st
  | fuel + 1, st, l => md5Blocks fuel (md5Block st (l.take 64)) (l.drop 64)

/-- Little-endian 8-byte encoding (the 64-bit bit-length field). -/
def toLE8 (n : Nat) : List Nat :=
  [n % 256, n / 256 % 256, n / 65536 % 256, n / 16777216 % 256,
   n / 4294967296 % 256, n / 1099511627776 % 256,
   n / 281474976710656 % 256, n / 72057594037927936 % 256]

/-- Little-endian 4-byte encoding of a 32-bit word. -/
def toLE4 (n : Nat) : List Nat :=
  [n % 256, n / 256 % 256, n / 65536 % 256, n / 16777216 % 256]

/-- MD5 padding: a `0x80` byte, zeros to 56 mod 64, then the bit length. -/
def md5Pad (msg : List Nat) : List Nat :=
  msg ++ [128] ++ List.replicate ((55 + 64 - msg.length % 64) % 64) 0
    ++ toLE8 (msg.length * 8)

/-- `hashlib.md5(...).digest()` as a byte list. -/
def md5 (msg : List Nat) : List Nat :=
  match md5Blocks (md5Pad msg).length
      (1732584193, 4023233417, 2562383102, 271733878) (md5Pad msg) with
  | (a, b, c, d) => toLE4 a ++ toLE4 b ++ toLE4 c ++ toLE4 d

/-- `.hexdigest()`: the digest bytes as a lowercase hexadecimal string. -/
def hexdigestOf (digest : List Nat) : String :=
  ⟨(hexlify digest).map Char.ofNat⟩

/-! ### The command registry (src/src/command.py) -/

/-- The closed enumeration of command names. -/
inductive CommandName
  | HELP
  | EXIT
  | ENCODE
  | DECODE
  | HASH
deriving DecidableEq

/-- `str(CommandName.X)` as interpolated into error messages. -/
def CommandName.pyStr : CommandName → String
  | .HELP => "CommandName.HELP"
  | .EXIT => "CommandName.EXIT"
  | .ENCODE => "CommandName.ENCODE"
  | .DECODE => "CommandName.DECODE"
  | .HASH => "CommandName.HASH"

/-- `CommandName.__members__`: member names to values, in declaration
order. -/
def CommandName.members : List (String × CommandName) :=
  [("HELP", .HELP), ("EXIT", .EXIT), ("ENCODE", .ENCODE),
   ("DECODE", .DECODE), ("HASH", .HASH)]

/-- The exceptions reaching the shell loop: the registry's conversion
error, `ValueError` (including its `binascii.Error` and `UnicodeError`
subclasses), and `KeyError` (not caught by the loop; unreachable after
validation). -/
inductive ShellError
  | commandNameConversionError (msg : String)
  | valueError (msg : String)
  | keyError (msg : String)
deriving DecidableEq

/-- `str_to_command_name`: upper-case the token (no strip) and look it up
among the enumeration members; raise `CommandNameConversionError` carrying
the token otherwise. -/
def str_to_command_name (name : String) : Except ShellError CommandName :=
  match CommandName.members.lookup (pyUpper name) with
  | none => .error (.commandNameConversionError ("Invalid command name: " ++ name))
  | some cn => .ok cn

/-- The five command handler variants, each carrying its `name` field. -/
inductive Command
  | helpCommand (name : CommandName)
  | exitCommand (name : CommandName)
  | encodeCommand (name : CommandName)
  | decodeCommand (name : CommandName)
  | hashCommand (name : CommandName)
deriving DecidableEq

/-- `command_factory`: the if/elif chain from the source; the final
`NotImplementedError` branch is unreachable for the five members, the HASH
test being the last one taken. -/
def command_factory (name : CommandName) : Command :=
  if name = .EXIT then .exitCommand name
  else if name = .HELP then .helpCommand name
  else if name = .ENCODE then .encodeCommand name
  else if name = .DECODE then .decodeCommand name
  else .hashCommand name

/-- One printed line: a `str`, or a printed `bytes` object (the encode
command prints the bytes result directly). -/
inductive Output
  | str (s : String)
  | bytes (b : List Nat)
deriving DecidableEq

/-- The visible result of one command execution: prints, a raised
exception, or prints followed by `exit(0)` (`SystemExit`). -/
inductive ExecResult
  | ok (outputs : List Output)
  | error (e : ShellError)
  | exit (outputs : List Output) (code : Nat)
deriving DecidableEq

/-- Scalar values of a string. -/
def strCodes (s : String) : List Nat := s.data.map Char.toNat

/-- Python `str.encode()`: the UTF-8 bytes of the string. -/
def strUTF8 (s : String) : List Nat := utf8Encode (strCodes s)

/-- `_bytes_from_decode_data` on a `str` argument: ASCII-encode, a
`ValueError` otherwise. -/
def asciiEncode (s : String) : Option (List Nat) :=
  if (strCodes s).all (fun c => c < 128) then some (strCodes s) else none

/-- `bytes.decode()`: strict UTF-8 decoding back to a string. -/
def utf8DecodeStr (b : List Nat) : Option String :=
  (utf8Decode b).map (fun cps => ⟨cps.map Char.ofNat⟩)

/-- The interpolated `dict_keys([...])` of an algorithm table (Python repr
quoting of the names is elided; every claim only needs that the message
names the available algorithms). -/
def dictKeysRepr (keys : List String) : String :=
  "dict_keys([" ++ String.intercalate ", " keys ++ "])"

namespace HelpCommand

/-- The static usage text (the triple-quoted `DOCUMENTATION` string). -/
def DOCUMENTATION : String :=
  "\n\nTo encode/Decode:\n    Encode/Decode <Text> <Algorithm>\n    Encode/Decode only for help.\nTo hash:\n    Hash <Text> <Algorithm>\n    Hash only for help.\n\n    "

def validate_argv (self : CommandName) (argv : List String) : Option ShellError :=
  if argv.length ≠ 0 then
    some (.valueError ("This command takes no arguments: " ++ self.pyStr))
  else none

def execute (self : CommandName) (argv : List String) : ExecResult :=
  match validate_argv self argv with
  | some e => .error e
  | none => .ok [.str DOCUMENTATION]

end HelpCommand

namespace ExitCommand

def validate_argv (self : CommandName) (argv : List String) : Option ShellError :=
  if argv.length ≠ 0 then
    some (.valueError ("This command takes no arguments: " ++ self.pyStr))
  else none

/-- Prints `Exiting...` and raises `SystemExit(0)`. -/
def execute (self : CommandName) (argv : List String) : ExecResult :=
  match validate_argv self argv with
  | some e => .error e
  | none => .exit [.str "Exiting..."] 0

end ExitCommand

namespace DecodeCommand

/-- The decode algorithm table. -/
def ALGORITHMS : List (String × (List Nat → Option (List Nat))) :=
  [("A85", a85decode), ("BASE16", b16decode), ("BASE32", b32decode),
   ("BASE32HEX", b32hexdecode), ("BASE64", b64decode), ("BASE85", b85decode),
   ("HEXLIFY", unhexlify)]

def DOCUMENTATION : String :=
  "Syntax: Decode <InputText> < "
    ++ String.intercalate " | " (ALGORITHMS.map (fun p => p.1)) ++ " >"

def validate_argv (self : CommandName) (argv : List String) : Option ShellError :=
  if argv.length ≠ 2 then
    some (.valueError ("This command takes exactly 2 arguments: " ++ self.pyStr))
  else
    match argv with
    | [_, algorithm] =>
      if (ALGORITHMS.map (fun p => p.1)).contains (pyStrip (pyUpper algorithm)) then
        none
      else
        some (.valueError ("Invalid algorithm name: " ++ algorithm
          ++ ";Available algorithms: " ++ dictKeysRepr (ALGORITHMS.map (fun p => p.1))))
    | _ => none

def execute (self : CommandName) (argv : List String) : ExecResult :=
  if argv.length = 0 then .ok [.str DOCUMENTATION]
  else
    match validate_argv self argv with
    | some e => .error e
    | none =>
      match argv with
      | [input_data, algorithm] =>
        (match ALGORITHMS.lookup (pyStrip (pyUpper algorithm)) with
         | none => .error (.keyError algorithm)
         | some func =>
           (match asciiEncode input_data with
            | none =>
              .error (.valueError "string argument should contain only ASCII characters")
            | some bs =>
              (match func bs with
               | none => .error (.valueError "Invalid conversion")
               | some decoded =>
                 (match utf8DecodeStr decoded with
                  | none => .error (.valueError "UnicodeDecodeError")
                  | some txt => .ok [.str txt]))))
      | _ => .error (.keyError "unreachable")

end DecodeCommand

namespace EncodeCommand

/-- The encode algorithm table. -/
def ALGORITHMS : List (String × (List Nat → List Nat)) :=
  [("A85", a85encode), ("BASE16", b16encode), ("BASE32", b32encode),
   ("BASE32HEX", b32hexencode), ("BASE64", b64encode), ("BASE85", b85encode),
   ("HEXLIFY", hexlify)]

def DOCUMENTATION : String :=
  "Syntax: Encode <InputText> < "
    ++ String.intercalate " | " (ALGORITHMS.map (fun p => p.1)) ++ " > "

def validate_argv (self : CommandName) (argv : List String) : Option ShellError :=
  if argv.length ≠ 2 then
    some (.valueError ("This command takes exactly 2 arguments: " ++ self.pyStr))
  else
    match argv with
    | [_, algorithm] =>
      if (ALGORITHMS.map (fun p => p.1)).contains (pyStrip (pyUpper algorithm)) then
        none
      else
        some (.valueError ("Invalid algorithm name: " ++ algorithm
          ++ ";Available algorithms: " ++ dictKeysRepr (ALGORITHMS.map (fun p => p.1))))
    | _ => none

def execute (self : CommandName) (argv : List String) : ExecResult :=
  if argv.length = 0 then .ok [.str DOCUMENTATION]
  else
    match validate_argv self argv with
    | some e => .error e
    | none =>
      match argv with
      | [input_data, algorithm] =>
        (match ALGORITHMS.lookup (pyStrip (pyUpper algorithm)) with
         | none => .error (.keyError algorithm)
         | some func => .ok [.bytes (func (strUTF8 input_data))])
      | _ => .error (.keyError "unreachable")

end EncodeCommand

/-- Modelled from the spec: the digest algorithms other than MD5 (BLAKE2,
SHA-1, SHA-2, SHA-3 families) are delegated to `hashlib` and are one-way
digests whose outputs no claim inspects; they are represented by distinct
abstract functions.  MD5 is modelled in full above. -/
def unmodeledDigest (_tag : Nat) (_input : List Nat) : List Nat := []

namespace HashCommand

/-- The hash algorithm table. -/
def ALGORITHMS : List (String × (List Nat → List Nat)) :=
  [("BLAKE2B", unmodeledDigest 0), ("BLAKE2S", unmodeledDigest 1), ("MD5", md5),
   ("SHA1", unmodeledDigest 2), ("SHA224", unmodeledDigest 3),
   ("SHA256", unmodeledDigest 4), ("SHA384", unmodeledDigest 5),
   ("SHA3_224", unmodeledDigest 6), ("SHA3_256", unmodeledDigest 7),
   ("SHA3_384", unmodeledDigest 8), ("SHA3_512", unmodeledDigest 9),
   ("SHA512", unmodeledDigest 10)]

def DOCUMENTATION : String :=
  "Syntax: Hash <InputText> < "
    ++ String.intercalate " | " (ALGORITHMS.map (fun p => p.1)) ++ " >"

/-- Unlike encode/decode, the membership test upper-cases the token but
does not strip it. -/
def validate_argv (self : CommandName) (argv : List String) : Option ShellError :=
  if argv.length ≠ 2 then
    some (.valueError ("This command takes exactly 2 arguments: " ++ self.pyStr))
  else
    match argv with
    | [_, algorithm] =>
      if (ALGORITHMS.map (fun p => p.1)).contains (pyUpper algorithm) then
        none
      else
        some (.valueError ("Invalid algorithm name: " ++ algorithm
          ++ "; Available algorithms: " ++ dictKeysRepr (ALGORITHMS.map (fun p => p.1))))
    | _ => none

def execute (self : CommandName) (argv : List String) : ExecResult :=
  if argv.length = 0 then .ok [.str DOCUMENTATION]
  else
    match validate_argv self argv with
    | some e => .error e
    | none =>
      match argv with
      | [input_data, algorithm] =>
        (match ALGORITHMS.lookup (pyStrip (pyUpper algorithm)) with
         | none => .error (.keyError algorithm)
         | some hashing_fn => .ok [.str (hexdigestOf (hashing_fn (strUTF8 input_data)))])
      | _ => .error (.keyError "unreachable")

end HashCommand

/-- Dispatch of `execute` over the command variants. -/
def Command.execute : Command → List String → ExecResult
  | .helpCommand n, argv => HelpCommand.execute n argv
  | .exitCommand n, argv => ExitCommand.execute n argv
  | .encodeCommand n, argv => EncodeCommand.execute n argv
  | .decodeCommand n, argv => DecodeCommand.execute n argv
  | .hashCommand n, argv => HashCommand.execute n argv

/-! ### The shell loop (src/src/shell.py) -/

/-- The shell state: the mapping built once in `__init__` by the dict
comprehension over `CommandName`. -/
structure Shell where
  supported_commands : CommandName → Command

/-- `Shell()`. -/
def Shell.init : Shell := ⟨fun name => command_factory name⟩

/-- `Shell._parse_cmd`: split on single spaces, strip-and-upper the first
element, strip each remaining element, then resolve the command name. -/
def Shell.parse_cmd (cmd : String) : Except ShellError (CommandName × List String) :=
  match str_to_command_name (pyUpper (pyStrip ((pySplit cmd).headD ""))) with
  | .error e => .error e
  | .ok command_name => .ok (command_name, (pySplit cmd).tail.map pyStrip)

/-- `Shell.execute_command`. -/
def Shell.execute_command (sh : Shell) (cmd : String) : ExecResult :=
  match Shell.parse_cmd cmd with
  | .error e => .error e
  | .ok (command_name, argv) => (sh.supported_commands command_name).execute argv

/-- How a (finite prefix of a) session ends. -/
inductive RunEnd
  | pending
  | exited (code : Nat)
  | crashed (e : ShellError)
deriving DecidableEq

/-- Whether the loop's `except (CommandNameConversionError, ValueError)`
clause catches the exception. -/
def ShellError.catchable : ShellError → Bool
  | .commandNameConversionError _ => true
  | .valueError _ => true
  | .keyError _ => false

/-- `str(error)`, as printed by the loop. -/
def ShellError.message : ShellError → String
  | .commandNameConversionError m => m
  | .valueError m => m
  | .keyError m => m

/-- `Shell.enter_command_to_execute` on a list of input lines: execute each
line, print caught errors and continue, stop on `SystemExit` (or on an
uncaught exception).  The shell state is threaded through unchanged. -/
def Shell.run (sh : Shell) : List String → List Output × RunEnd × Shell
  | [] => ([], .pending, sh)
  | line :: rest =>
    match sh.execute_command line with
    | .ok outs =>
      (match sh.run rest with
       | (os, e, sh2) => (outs ++ os, e, sh2))
    | .exit outs code => (outs, .exited code, sh)
    | .error err =>
      if err.catchable then
        (match sh.run rest with
         | (os, e, sh2) => (Output.str err.message :: os, e, sh2))
      else ([], .crashed err, sh)

/-! ### Claim theorems -/

/-- A representable text: a list of Unicode scalar values. -/
def ValidText (text : List Nat) : Prop := ∀ c ∈ text, ValidScalar c

instance (text : List Nat) : Decidable (ValidText text) := by
  unfold ValidText
  infer_instance

/-- C1: for every algorithm name in the encode/decode table and every text
representable in the fixed character encoding, the decode function applied
to the output of the encode function yields the original text. -/
theorem c1_round_trip (name : String) (encF : List Nat → List Nat)
    (decF : List Nat → Option (List Nat)) (text : List Nat)
    (henc : (name, encF) ∈ EncodeCommand.ALGORITHMS)
    (hdec : (name, decF) ∈ DecodeCommand.ALGORITHMS)
    (htext : ValidText text) :
    (decF (encF (utf8Encode text))).bind utf8Decode = some text := by
  have hbytes : Bytes (utf8Encode text) := fun b hb => utf8Encode_lt_256 text htext b hb
  have hutf := utf8_round_trip text htext
  simp only [EncodeCommand.ALGORITHMS, DecodeCommand.ALGORITHMS, List.mem_cons,
    List.not_mem_nil, or_false, Prod.mk.injEq] at henc hdec
  rcases henc with ⟨rfl, rfl⟩ | ⟨rfl, rfl⟩ | ⟨rfl, rfl⟩ | ⟨rfl, rfl⟩ | ⟨rfl, rfl⟩
    | ⟨rfl, rfl⟩ | ⟨rfl, rfl⟩ <;>
  rcases hdec with ⟨h2, rfl⟩ | ⟨h2, rfl⟩ | ⟨h2, rfl⟩ | ⟨h2, rfl⟩ | ⟨h2, rfl⟩
    | ⟨h2, rfl⟩ | ⟨h2, rfl⟩ <;>
  first
    | exact absurd h2 (by decide)
    | (rw [a85decode_a85encode _ hbytes]; simpa using hutf)
    | (rw [b16decode_b16encode _ hbytes]; simpa using hutf)
    | (rw [b32decode_b32encode _ hbytes]; simpa using hutf)
    | (rw [b32hexdecode_b32hexencode _ hbytes]; simpa using hutf)
    | (rw [b64decode_b64encode _ hbytes]; simpa using hutf)
    | (rw [b85decode_b85encode _ hbytes]; simpa using hutf)
    | (rw [unhexlify_hexlify _ hbytes]; simpa using hutf)

/-- Witness for C1 at the BASE64 algorithm and the text "hi". -/
theorem c1_round_trip_witness :
    ("BASE64", b64encode) ∈ EncodeCommand.ALGORITHMS
    ∧ ("BASE64", b64decode) ∈ DecodeCommand.ALGORITHMS
    ∧ ValidText [104, 105]
    ∧ (b64decode (b64encode (utf8Encode [104, 105]))).bind utf8Decode = some [104, 105] :=
  ⟨by simp [EncodeCommand.ALGORITHMS], by simp [DecodeCommand.ALGORITHMS], by decide,
   c1_round_trip "BASE64" b64encode b64decode [104, 105]
     (by simp [EncodeCommand.ALGORITHMS]) (by simp [DecodeCommand.ALGORITHMS]) (by decide)⟩

/-- C2 counterexample: on input `hash hello MD5` the code prints the full
32-digit digest ending in `c592`, not the 31-digit string the claim
states. -/
theorem c2_counterexample :
    HashCommand.execute .HASH ["hello", "MD5"]
      = .ok [.str "5d41402abc4b2a76b9719d911017c592"]
    ∧ "5d41402abc4b2a76b9719d911017c592" ≠ "5d41402abc4b2a76b9719d911017c59" :=
  ⟨by decide, by decide⟩

/-- C2 (amended): `hash hello MD5` prints `5d41402abc4b2a76b9719d911017c592`;
in general, a hash execute([text, algorithmName]) call that passes
validation converts the text to bytes via the fixed character encoding,
computes the selected digest and prints its lowercase hexadecimal
representation. -/
theorem c2_amended (text alg : String) (f : List Nat → List Nat)
    (hv : HashCommand.validate_argv .HASH [text, alg] = none)
    (hf : HashCommand.ALGORITHMS.lookup (pyStrip (pyUpper alg)) = some f) :
    HashCommand.execute .HASH [text, alg]
      = .ok [.str (hexdigestOf (f (strUTF8 text)))]
    ∧ HashCommand.execute .HASH ["hello", "MD5"]
      = .ok [.str "5d41402abc4b2a76b9719d911017c592"] := by
  constructor
  · rw [HashCommand.execute, if_neg (by simp), hv]
    simp only [hf]
  · decide

/-- Witness for C2 (amended) at `hash hello MD5`. -/
theorem c2_amended_witness :
    HashCommand.validate_argv .HASH ["hello", "MD5"] = none
    ∧ HashCommand.ALGORITHMS.lookup (pyStrip (pyUpper "MD5")) = some md5
    ∧ HashCommand.execute .HASH ["hello", "MD5"]
        = .ok [.str (hexdigestOf (md5 (strUTF8 "hello")))] :=
  ⟨rfl, rfl, (c2_amended "hello" "MD5" md5 rfl rfl).1⟩

/-- C3 counterexample: the token ` HELP` normalises to the member name
`HELP` under uppercase-and-trim, yet `str_to_command_name` raises, because
the code uppercases without trimming. -/
theorem c3_counterexample :
    pyUpper (pyStrip " HELP") = "HELP"
    ∧ CommandName.members.lookup "HELP" = some .HELP
    ∧ str_to_command_name " HELP"
        = .error (.commandNameConversionError "Invalid command name:  HELP") :=
  ⟨rfl, rfl, rfl⟩

/-- C3 (amended): `str_to_command_name` uppercases its token (without
trimming) before looking it up, so resolution is case-insensitive (HELP,
help and HeLp all resolve to the same name); every token with no match
after uppercasing raises `CommandNameConversionError` carrying the
offending token. -/
theorem c3_amended (token : String) :
    (∀ cn, CommandName.members.lookup (pyUpper token) = some cn →
        str_to_command_name token = .ok cn)
    ∧ (CommandName.members.lookup (pyUpper token) = none →
        str_to_command_name token
          = .error (.commandNameConversionError ("Invalid command name: " ++ token)))
    ∧ str_to_command_name "HELP" = .ok .HELP
    ∧ str_to_command_name "help" = .ok .HELP
    ∧ str_to_command_name "HeLp" = .ok .HELP := by
  refine ⟨?_, ?_, rfl, rfl, rfl⟩
  · intro cn h
    rw [str_to_command_name, h]
  · intro h
    rw [str_to_command_name, h]

/-- Witness for C3 (amended) at the tokens `exit` and `foo`. -/
theorem c3_amended_witness :
    CommandName.members.lookup (pyUpper "exit") = some .EXIT
    ∧ str_to_command_name "exit" = .ok .EXIT
    ∧ CommandName.members.lookup (pyUpper "foo") = none
    ∧ str_to_command_name "foo"
        = .error (.commandNameConversionError "Invalid command name: foo") :=
  ⟨rfl, (c3_amended "exit").1 .EXIT rfl, rfl, (c3_amended "foo").2.1 rfl⟩

/-- C4: each of encode, decode and hash prints its syntax line (listing its
supported algorithm names) on an empty argument list, raising no error and
performing no transformation. -/
theorem c4_zero_args_syntax :
    EncodeCommand.execute .ENCODE []
      = .ok [.str ("Syntax: Encode <InputText> < A85 | BASE16 | BASE32 | BASE32HEX"
          ++ " | BASE64 | BASE85 | HEXLIFY > ")]
    ∧ DecodeCommand.execute .DECODE []
      = .ok [.str ("Syntax: Decode <InputText> < A85 | BASE16 | BASE32 | BASE32HEX"
          ++ " | BASE64 | BASE85 | HEXLIFY >")]
    ∧ HashCommand.execute .HASH []
      = .ok [.str ("Syntax: Hash <InputText> < BLAKE2B | BLAKE2S | MD5 | SHA1 | SHA224"
          ++ " | SHA256 | SHA384 | SHA3_224 | SHA3_256 | SHA3_384 | SHA3_512 | SHA512 >")] :=
  ⟨by decide, by decide, by decide⟩

/-- C5 counterexample: for an encode call with algorithm token ` base64 `,
the upper-cased token ` BASE64 ` is not a key of the table, yet the
command performs the encoding instead of raising an invalid-algorithm
error (the code also strips the token before the lookup). -/
theorem c5_counterexample :
    (EncodeCommand.ALGORITHMS.map (fun p => p.1)).contains (pyUpper " base64 ") = false
    ∧ EncodeCommand.execute .ENCODE ["hi", " base64 "]
        = .ok [.bytes (b64encode (strUTF8 "hi"))] :=
  ⟨by decide, by decide⟩

/-- C5 (amended): whenever the normalised algorithm token (upper-cased and
stripped for encode/decode, upper-cased for hash) is not a key of the
command's table, execute([text, algorithmName]) raises a ValueError whose
message names the available algorithms and performs no transformation; the
shell loop catches any such caught error, prints it, and resumes with the
remaining input lines. -/
theorem c5_amended :
    (∀ text alg,
      (EncodeCommand.ALGORITHMS.map (fun p => p.1)).contains (pyStrip (pyUpper alg)) = false →
      EncodeCommand.execute .ENCODE [text, alg]
        = .error (.valueError ("Invalid algorithm name: " ++ alg
            ++ ";Available algorithms: "
            ++ dictKeysRepr (EncodeCommand.ALGORITHMS.map (fun p => p.1)))))
    ∧ (∀ text alg,
      (DecodeCommand.ALGORITHMS.map (fun p => p.1)).contains (pyStrip (pyUpper alg)) = false →
      DecodeCommand.execute .DECODE [text, alg]
        = .error (.valueError ("Invalid algorithm name: " ++ alg
            ++ ";Available algorithms: "
            ++ dictKeysRepr (DecodeCommand.ALGORITHMS.map (fun p => p.1)))))
    ∧ (∀ text alg,
      (HashCommand.ALGORITHMS.map (fun p => p.1)).contains (pyUpper alg) = false →
      HashCommand.execute .HASH [text, alg]
        = .error (.valueError ("Invalid algorithm name: " ++ alg
            ++ "; Available algorithms: "
            ++ dictKeysRepr (HashCommand.ALGORITHMS.map (fun p => p.1)))))
    ∧ (∀ (sh : Shell) (line : String) (rest : List String) (e : ShellError),
      sh.execute_command line = .error e → e.catchable = true →
      sh.run (line :: rest)
        = (Output.str e.message :: (sh.run rest).1, (sh.run rest).2.1, (sh.run rest).2.2)) := by
  refine ⟨?_, ?_, ?_, ?_⟩
  · intro text alg h
    rw [EncodeCommand.execute, if_neg (by simp)]
    rw [EncodeCommand.validate_argv, if_neg (by simp)]
    simp only [h]
    rfl
  · intro text alg h
    rw [DecodeCommand.execute, if_neg (by simp)]
    rw [DecodeCommand.validate_argv, if_neg (by simp)]
    simp only [h]
    rfl
  · intro text alg h
    rw [HashCommand.execute, if_neg (by simp)]
    rw [HashCommand.validate_argv, if_neg (by simp)]
    simp only [h]
    rfl
  · intro sh line rest e he hc
    rw [Shell.run, he]
    simp [hc]

/-- Witness for C5 (amended) at `encode hello FOO` followed by `help`. -/
theorem c5_amended_witness :
    EncodeCommand.execute .ENCODE ["hello", "FOO"]
      = .error (.valueError ("Invalid algorithm name: FOO;Available algorithms: "
          ++ dictKeysRepr (EncodeCommand.ALGORITHMS.map (fun p => p.1))))
    ∧ Shell.init.run ["encode hello FOO", "help"]
      = (Output.str ("Invalid algorithm name: FOO;Available algorithms: "
            ++ dictKeysRepr (EncodeCommand.ALGORITHMS.map (fun p => p.1)))
          :: (Shell.init.run ["help"]).1,
         (Shell.init.run ["help"]).2.1, (Shell.init.run ["help"]).2.2) :=
  ⟨(c5_amended).1 "hello" "FOO" (by decide),
   (c5_amended).2.2.2 Shell.init "encode hello FOO" ["help"]
     (.valueError ("Invalid algorithm name: FOO;Available algorithms: "
        ++ dictKeysRepr (EncodeCommand.ALGORITHMS.map (fun p => p.1))))
     (by decide) rfl⟩

/-- C6: a decode call with a valid algorithm whose conversion fails on the
payload raises a ValueError, and the shell loop catches it, prints it, and
resumes with the remaining input lines. -/
theorem c6_decode_malformed (text alg : String) (f : List Nat → Option (List Nat))
    (bs : List Nat)
    (hv : DecodeCommand.validate_argv .DECODE [text, alg] = none)
    (hf : DecodeCommand.ALGORITHMS.lookup (pyStrip (pyUpper alg)) = some f)
    (ha : asciiEncode text = some bs)
    (hfail : f bs = none) :
    DecodeCommand.execute .DECODE [text, alg] = .error (.valueError "Invalid conversion")
    ∧ (∀ (sh : Shell) (line : String) (rest : List String) (e : ShellError),
      sh.execute_command line = .error e → e.catchable = true →
      sh.run (line :: rest)
        = (Output.str e.message :: (sh.run rest).1, (sh.run rest).2.1, (sh.run rest).2.2)) := by
  constructor
  · rw [DecodeCommand.execute, if_neg (by simp), hv]
    simp only [hf, ha, hfail]
  · intro sh line rest e he hc
    rw [Shell.run, he]
    simp [hc]

/-- Witness for C6 at `decode abc BASE64` (a payload with invalid base64
padding) followed by `help`. -/
theorem c6_decode_malformed_witness :
    DecodeCommand.validate_argv .DECODE ["abc", "BASE64"] = none
    ∧ b64decode [97, 98, 99] = none
    ∧ DecodeCommand.execute .DECODE ["abc", "BASE64"]
        = .error (.valueError "Invalid conversion")
    ∧ Shell.init.run ["decode abc BASE64", "help"]
      = (Output.str "Invalid conversion" :: (Shell.init.run ["help"]).1,
         (Shell.init.run ["help"]).2.1, (Shell.init.run ["help"]).2.2) :=
  ⟨rfl, by decide,
   (c6_decode_malformed "abc" "BASE64" b64decode [97, 98, 99] rfl rfl rfl (by decide)).1,
   (c6_decode_malformed "abc" "BASE64" b64decode [97, 98, 99] rfl rfl rfl (by decide)).2
     Shell.init "decode abc BASE64" ["help"] (.valueError "Invalid conversion")
     (by decide) rfl⟩

/-- The help command never raises `SystemExit`. -/
theorem help_not_exit (n : CommandName) (argv : List String) (outs : List Output)
    (c : Nat) : HelpCommand.execute n argv ≠ .exit outs c := by
  rw [HelpCommand.execute]
  split <;> simp

/-- The encode command never raises `SystemExit`. -/
theorem encode_not_exit (n : CommandName) (argv : List String) (outs : List Output)
    (c : Nat) : EncodeCommand.execute n argv ≠ .exit outs c := by
  rcases argv with _ | ⟨a1, _ | ⟨a2, _ | ⟨a3, rest⟩⟩⟩ <;>
    (rw [EncodeCommand.execute]
     repeat' split
     all_goals simp)

/-- The decode command never raises `SystemExit`. -/
theorem decode_not_exit (n : CommandName) (argv : List String) (outs : List Output)
    (c : Nat) : DecodeCommand.execute n argv ≠ .exit outs c := by
  rcases argv with _ | ⟨a1, _ | ⟨a2, _ | ⟨a3, rest⟩⟩⟩ <;>
    (rw [DecodeCommand.execute]
     repeat' split
     all_goals simp)

/-- The hash command never raises `SystemExit`. -/
theorem hash_not_exit (n : CommandName) (argv : List String) (outs : List Output)
    (c : Nat) : HashCommand.execute n argv ≠ .exit outs c := by
  rcases argv with _ | ⟨a1, _ | ⟨a2, _ | ⟨a3, rest⟩⟩⟩ <;>
    (rw [HashCommand.execute]
     repeat' split
     all_goals simp)

/-- Whenever a command execution raises `SystemExit`, the exit status is 0
(the only `exit` call in the program is `exit(0)` in `ExitCommand.execute`). -/
theorem execute_exit_code (cmd : Command) (argv : List String) (outs : List Output)
    (c : Nat) (hex : cmd.execute argv = .exit outs c) : c = 0 := by
  cases cmd with
  | helpCommand n => exact absurd hex (help_not_exit n argv outs c)
  | encodeCommand n => exact absurd hex (encode_not_exit n argv outs c)
  | decodeCommand n => exact absurd hex (decode_not_exit n argv outs c)
  | hashCommand n => exact absurd hex (hash_not_exit n argv outs c)
  | exitCommand n =>
    simp only [Command.execute, ExitCommand.execute] at hex
    split at hex
    · simp at hex
    · simp at hex
      omega

/-- C7: exit with no arguments prints the exit message and terminates the
process with status 0; a non-empty argv raises an argument-count error
instead; and status 0 is the only exit status the shell loop can ever
produce. -/
theorem c7_exit (argv : List String) (h : argv ≠ []) :
    ExitCommand.execute .EXIT [] = .exit [.str "Exiting..."] 0
    ∧ ExitCommand.execute .EXIT argv
        = .error (.valueError "This command takes no arguments: CommandName.EXIT")
    ∧ (∀ (sh : Shell) (lines : List String) (code : Nat),
        (sh.run lines).2.1 = .exited code → code = 0) := by
  refine ⟨rfl, ?_, ?_⟩
  · rw [ExitCommand.execute, ExitCommand.validate_argv,
        if_pos (by simpa [List.length_eq_zero] using h)]
    rfl
  · intro sh lines code
    induction lines with
    | nil =>
      intro hend
      simp [Shell.run] at hend
    | cons line rest ih =>
      intro hend
      rw [Shell.run] at hend
      cases hex : sh.execute_command line with
      | ok outs =>
        rw [hex] at hend
        rcases hrr : sh.run rest with ⟨os, en, sh2⟩
        rw [hrr] at hend
        apply ih
        rw [hrr]
        simpa using hend
      | exit outs c =>
        rw [hex] at hend
        simp at hend
        have hc0 : c = 0 := by
          rw [Shell.execute_command] at hex
          split at hex
          · simp at hex
          · exact execute_exit_code _ _ _ _ hex
        omega
      | error e =>
        rw [hex] at hend
        by_cases hc : e.catchable = true
        · rcases hrr : sh.run rest with ⟨os, en, sh2⟩
          rw [hrr] at hend
          simp [hc] at hend
          apply ih
          rw [hrr]
          simpa using hend
        · simp [hc] at hend

/-- Witness for C7 at the one-element argument list. -/
theorem c7_exit_witness :
    ExitCommand.execute .EXIT ["x"]
      = .error (.valueError "This command takes no arguments: CommandName.EXIT") :=
  (c7_exit ["x"] (by simp)).2.1

/-- Executing lines never changes the shell state (the mapping is built
once in `__init__` and only read afterwards). -/
theorem Shell.run_state (sh : Shell) (lines : List String) : (sh.run lines).2.2 = sh := by
  induction lines with
  | nil => rfl
  | cons line rest ih =>
    rw [Shell.run]
    cases hex : sh.execute_command line with
    | ok outs =>
      rcases hrr : sh.run rest with ⟨os, en, sh2⟩
      rw [hrr] at ih
      simpa [hrr] using ih
    | exit outs code => rfl
    | error err =>
      by_cases hc : err.catchable = true
      · rcases hrr : sh.run rest with ⟨os, en, sh2⟩
        rw [hrr] at ih
        simpa [hc, hrr] using ih
      · simp [hc]

/-- C8: after construction the supported_commands mapping sends every
command name to the factory-built instance of the matching variant
(HELP to HelpCommand, EXIT to ExitCommand, ENCODE to EncodeCommand,
DECODE to DecodeCommand, HASH to HashCommand), and no command execution
mutates the mapping. -/
theorem c8_registry :
    (∀ name : CommandName, Shell.init.supported_commands name = command_factory name)
    ∧ Shell.init.supported_commands .HELP = .helpCommand .HELP
    ∧ Shell.init.supported_commands .EXIT = .exitCommand .EXIT
    ∧ Shell.init.supported_commands .ENCODE = .encodeCommand .ENCODE
    ∧ Shell.init.supported_commands .DECODE = .decodeCommand .DECODE
    ∧ Shell.init.supported_commands .HASH = .hashCommand .HASH
    ∧ (∀ (sh : Shell) (lines : List String),
        ((sh.run lines).2.2).supported_commands = sh.supported_commands) :=
  ⟨fun _ => rfl, by decide, by decide, by decide, by decide, by decide,
   fun sh lines => by rw [Shell.run_state]⟩

/-- The last element of a mapped list is the image of the last element. -/
theorem getLast?_map {α β : Type} (f : α → β) (l : List α) :
    (l.map f).getLast? = l.getLast?.map f := by
  induction l with
  | nil => rfl
  | cons a l2 ih =>
    cases l2 with
    | nil => rfl
    | cons b l3 => simpa [List.getLast?_cons_cons] using ih

/-- A list of length at least two has a nonempty tail with the same last
element. -/
theorem getLast?_tail_of_two_le {α : Type} (l : List α) (h : 2 ≤ l.length) :
    l.tail ≠ [] ∧ l.tail.getLast? = l.getLast? := by
  cases l with
  | nil => simp at h
  | cons a l2 =>
    cases l2 with
    | nil => simp at h
    | cons b l3 =>
      refine ⟨by simp, ?_⟩
      rw [List.getLast?_cons_cons]
      rfl

/-- C9: a line ending in a space parses to a nonempty argv whose last
element is the empty string; hence `help ` raises the takes-no-arguments
ValueError instead of printing help, and `encode ` raises the
argument-count error instead of printing its syntax line. -/
theorem c9_trailing_space :
    (∀ (line : String) (name : CommandName) (argv : List String),
        line.data.getLast? = some ' ' →
        Shell.parse_cmd line = .ok (name, argv) →
        argv ≠ [] ∧ argv.getLast? = some "")
    ∧ Shell.init.execute_command "help "
        = .error (.valueError "This command takes no arguments: CommandName.HELP")
    ∧ Shell.init.execute_command "encode "
        = .error (.valueError "This command takes exactly 2 arguments: CommandName.ENCODE") := by
  refine ⟨?_, by decide, by decide⟩
  intro line name argv hsp hok
  rw [Shell.parse_cmd] at hok
  cases hm : str_to_command_name (pyUpper (pyStrip ((pySplit line).headD ""))) with
  | error e =>
    rw [hm] at hok
    simp at hok
  | ok cn =>
    rw [hm] at hok
    simp at hok
    obtain ⟨h1, h2⟩ := hok
    subst h2
    obtain ⟨hlen, hlast⟩ := splitSpace_trailing_space line.data hsp
    have h2le : 2 ≤ (pySplit line).length := by simpa [pySplit] using hlen
    obtain ⟨htne, hteq⟩ := getLast?_tail_of_two_le (pySplit line) h2le
    have hcomm : (List.map pyStrip (pySplit line)).tail
        = (pySplit line).tail.map pyStrip := by
      cases pySplit line <;> rfl
    constructor
    · intro hnil
      rw [hcomm] at hnil
      cases hsp2 : (pySplit line).tail with
      | nil => exact htne hsp2
      | cons w ws =>
        rw [hsp2] at hnil
        simp at hnil
    · rw [hcomm, getLast?_map, hteq, pySplit, getLast?_map, hlast]
      rfl

/-- Witness for C9 at the line `exit ` (trailing space). -/
theorem c9_trailing_space_witness :
    (([""] : List String) ≠ []) ∧ ([""] : List String).getLast? = some "" :=
  c9_trailing_space.1 "exit " .EXIT [""] rfl rfl

/-- A key with a lookup hit occurs among the mapped-out keys. -/
theorem contains_of_lookup_some {β : Type} (l : List (String × β)) (k : String)
    (f : β) (h : l.lookup k = some f) : (l.map (fun p => p.1)).contains k = true := by
  induction l with
  | nil => simp [List.lookup] at h
  | cons p rest ih =>
    cases p with
    | mk a b =>
      rw [List.lookup] at h
      by_cases hk : (k == a) = true
      · simp [hk]
      · rw [Bool.not_eq_true] at hk
        rw [hk] at h
        have h2 : List.lookup k rest = some f := h
        simp only [List.map_cons, List.contains_cons, hk, Bool.false_or]
        exact ih h2

/-- C10: hash validation upper-cases the algorithm token without stripping
it, so a whitespace-padded valid digest name draws the invalid-algorithm
ValueError, while encode and decode strip the token before the membership
test and accept an analogous whitespace-padded algorithm name. -/
theorem c10_whitespace_asymmetry (text alg : String)
    (_hpad : (HashCommand.ALGORITHMS.map (fun p => p.1)).contains
        (pyStrip (pyUpper alg)) = true)
    (hraw : (HashCommand.ALGORITHMS.map (fun p => p.1)).contains
        (pyUpper alg) = false) :
    HashCommand.execute .HASH [text, alg]
      = .error (.valueError ("Invalid algorithm name: " ++ alg
          ++ "; Available algorithms: "
          ++ dictKeysRepr (HashCommand.ALGORITHMS.map (fun p => p.1))))
    ∧ (∀ (alg2 : String) (f : List Nat → List Nat),
        EncodeCommand.ALGORITHMS.lookup (pyStrip (pyUpper alg2)) = some f →
        EncodeCommand.execute .ENCODE [text, alg2] = .ok [.bytes (f (strUTF8 text))])
    ∧ (∀ (alg2 : String) (f : List Nat → Option (List Nat)),
        DecodeCommand.ALGORITHMS.lookup (pyStrip (pyUpper alg2)) = some f →
        DecodeCommand.validate_argv .DECODE [text, alg2] = none) := by
  refine ⟨?_, ?_, ?_⟩
  · rw [HashCommand.execute, if_neg (by simp)]
    rw [HashCommand.validate_argv, if_neg (by simp)]
    simp only [hraw]
    rfl
  · intro alg2 f hf
    have hc := contains_of_lookup_some _ _ _ hf
    rw [EncodeCommand.execute, if_neg (by simp)]
    rw [EncodeCommand.validate_argv, if_neg (by simp), if_pos hc]
    simp [hf]
  · intro alg2 f hf
    have hc := contains_of_lookup_some _ _ _ hf
    have hred : DecodeCommand.validate_argv .DECODE [text, alg2]
        = if (DecodeCommand.ALGORITHMS.map (fun p => p.1)).contains
              (pyStrip (pyUpper alg2)) = true
          then none
          else some (.valueError ("Invalid algorithm name: " ++ alg2
            ++ ";Available algorithms: "
            ++ dictKeysRepr (DecodeCommand.ALGORITHMS.map (fun p => p.1)))) := rfl
    rw [hred, if_pos hc]

/-- Witness for C10 at the algorithm tokens ` md5 ` and ` base64 `. -/
theorem c10_whitespace_asymmetry_witness :
    HashCommand.execute .HASH ["x", " md5 "]
      = .error (.valueError ("Invalid algorithm name: " ++ " md5 "
          ++ "; Available algorithms: "
          ++ dictKeysRepr (HashCommand.ALGORITHMS.map (fun p => p.1))))
    ∧ EncodeCommand.execute .ENCODE ["x", " base64 "]
        = .ok [.bytes (b64encode (strUTF8 "x"))]
    ∧ DecodeCommand.validate_argv .DECODE ["x", " base64 "] = none :=
  ⟨(c10_whitespace_asymmetry "x" " md5 " (by decide) (by decide)).1,
   (c10_whitespace_asymmetry "x" " md5 " (by decide) (by decide)).2.1 " base64 " b64encode rfl,
   (c10_whitespace_asymmetry "x" " md5 " (by decide) (by decide)).2.2 " base64 " b64decode rfl⟩

end ShellRoast
